import Mathlib

/-!
# chroma-overlay: the capture, composite and mask engine of `src/main.cpp`

A shallow embedding of the parts of `src/main.cpp` that the specification's
testable properties talk about, followed by the theorems that settle them.

Conventions of the embedding:

* C `int` values are Lean `Int`s.  Signed overflow of an `int` is undefined
  behaviour in C++: where the source can overflow (the loop counters and the
  reserve size of the mask analysis, the sums of `quadUpdate`, the conversion
  of a `float` to `int`) the result is `none`.  Every theorem that depends on a
  range says so in its hypotheses.
* The narrowing conversions that the source performs explicitly
  (`(short)`, `(unsigned short)`, `& 0xFF`) are modelled by explicit modular
  arithmetic.
* A computation that exits the process, throws, divides by zero or does not
  terminate is `none`.  Memory allocation is taken to succeed.
* Loops are translated with a fuel argument; the entry points supply a fuel
  that is sufficient whenever the C++ loop terminates, and the theorems prove
  that a result is produced.
-/

namespace ChromaOverlay

/-! ## Data model -/

/-- Rectangle of the program (`struct Rect { int x, y, w, h; }`, line 30). -/
structure Rect where
  x : Int
  y : Int
  w : Int
  h : Int
deriving DecidableEq, Repr

/-- Xlib rectangle (`XRectangle`): `short x, y; unsigned short width, height`. -/
structure XRectangle where
  x : Int
  y : Int
  width : Int
  height : Int
deriving DecidableEq, Repr

/-- Conversion of an `int` to `short` (16 bit two's complement), as in `(short)runStart`. -/
def toShort (v : Int) : Int := (v + 32768) % 65536 - 32768

/-- Conversion of an `int` to `unsigned short`, as in `(unsigned short)(x - runStart)`. -/
def toUShort (v : Int) : Int := v % 65536

/-- Sum of two `int`s; undefined when it overflows. -/
def intAdd (a b : Int) : Option Int :=
  if -2147483648 ≤ a + b ∧ a + b ≤ 2147483647 then some (a + b) else none

/-- Image returned by `XGetImage`: `img x y` is the value of `XGetPixel(img, x, y)`. -/
abbrev XImage := Int → Int → Nat

/-! ## Chroma classification (lines 305-308 and 321-326) -/

/-- Red channel of a pixel value: `(px >> 16) & 0xFF` (line 322). -/
def chanR (px : Nat) : Nat := (px >>> 16) &&& 0xFF

/-- Green channel of a pixel value: `(px >> 8) & 0xFF` (line 323). -/
def chanG (px : Nat) : Nat := (px >>> 8) &&& 0xFF

/-- Blue channel of a pixel value: `(px >> 0) & 0xFF` (line 324). -/
def chanB (px : Nat) : Nat := (px >>> 0) &&& 0xFF

/-- Function `isGreenPixel` (lines 305-308):
`return (g >= 153) && (r <= 89) && (b <= 89);` on `uint8_t` channels. -/
def isGreenPixel (r g b : Nat) : Bool :=
  decide (g ≥ 153) && decide (r ≤ 89) && decide (b ≤ 89)

/-- The local `bool opaque = !isGreenPixel(r,g,b);` of line 326, for the pixel value `px`. -/
def pixelSolid (px : Nat) : Bool :=
  !isGreenPixel (chanR px) (chanG px) (chanB px)

/-! ## Input-mask analysis (`applyOpaqueInputRegion`, lines 311-351) -/

/-- Inner loop of `applyOpaqueInputRegion` (lines 320-336):
`for (int x = 0; x < w; x += step)` with the loop state `x`, `runStart`, `rects`.
Returns the final `runStart` and `rects`; `none` when the fuel runs out or the
increment `x += step` overflows. -/
def scanRow (img : XImage) (w step y : Int) :
    Nat → Int → Int → List XRectangle → Option (Int × List XRectangle)
  | 0, _, _, _ => none
  | fuel + 1, x, runStart, rects =>
    if x < w then
      let solid := pixelSolid (img x y)
      let runStart1 := if solid && decide (runStart < 0) then x else runStart
      match intAdd x step with
      | none => none
      | some x1 =>
        if !solid && decide (runStart1 ≥ 0) then
          scanRow img w step y fuel x1 (-1)
            (rects ++ [⟨toShort runStart1, toShort y, toUShort (x - runStart1), toUShort step⟩])
        else
          scanRow img w step y fuel x1 runStart1 rects
    else
      some (runStart, rects)

/-- Body of the outer loop (lines 319-343) for the row `y`: the inner loop started
with `runStart = -1`, then the flush of a run that reaches the end of the row. -/
def rowBody (img : XImage) (w step y : Int) (rects : List XRectangle) :
    Option (List XRectangle) :=
  match scanRow img w step y (w.toNat + 1) 0 (-1) rects with
  | none => none
  | some (runStart, rects1) =>
    if runStart ≥ 0 then
      some (rects1 ++ [⟨toShort runStart, toShort y, toUShort (w - runStart), toUShort step⟩])
    else
      some rects1

/-- Outer loop of `applyOpaqueInputRegion` (lines 318-344):
`for (int y = 0; y < h; y += step)`; `none` when the fuel runs out, the row does not
complete or the increment `y += step` overflows. -/
def scanRows (img : XImage) (w h step : Int) :
    Nat → Int → List XRectangle → Option (List XRectangle)
  | 0, _, _ => none
  | fuel + 1, y, rects =>
    if y < h then
      match rowBody img w step y rects with
      | none => none
      | some rects1 =>
        match intAdd y step with
        | none => none
        | some y1 => scanRows img w h step fuel y1 rects1
    else
      some rects

/-- The vector `rects` handed to `XFixesCreateRegion` at line 347.
`rects.reserve((h/step + 1) * 16)` divides by `step`, throws `std::length_error` when
the requested capacity is negative, and overflows when it exceeds `INT_MAX`. -/
def maskRects (img : XImage) (w h step : Int) : Option (List XRectangle) :=
  if step = 0 then none
  else if (Int.tdiv h step + 1) * 16 < 0 then none
  else if 2147483647 < (Int.tdiv h step + 1) * 16 then none
  else scanRows img w h step (h.toNat + 1) 0 []

/-- Function `applyOpaqueInputRegion` (lines 311-351).  `img` is the result of
`XGetImage` (`none` for a null pointer) and `shape` the input shape of the target
before the call; the result is the input shape of the target after the call. -/
def applyOpaqueInputRegion (img : Option XImage) (w h step : Int)
    (shape : List XRectangle) : Option (List XRectangle) :=
  match img with
  | none => some shape
  | some im => maskRects im w h step

/-! ## Specification vocabulary for the mask analysis -/

/-- Sample number `i` of the row `y` (column `i * step`) is classified solid,
that is, not chroma. -/
def sampleSolid (img : XImage) (step y : Int) (i : Nat) : Bool :=
  pixelSolid (img ((i : Int) * step) y)

/-- Samples `i .. j` (inclusive) of the row `y` form a maximal run of consecutive solid
samples: all of them are solid, the sample before `i` (if any) and the sample after
`j` (if it is still inside the width `w`) are chroma. -/
def IsMaxRun (img : XImage) (w step y : Int) (i j : Nat) : Prop :=
  i ≤ j ∧ (j : Int) * step < w ∧
  (∀ t : Nat, i ≤ t → t ≤ j → sampleSolid img step y t = true) ∧
  (i = 0 ∨ sampleSolid img step y (i - 1) = false) ∧
  (((j : Int) + 1) * step < w → sampleSolid img step y (j + 1) = false)

/-- Row-major order of rectangles: an earlier row first, and within a row left to right. -/
def RowMajorLt (a b : XRectangle) : Prop :=
  a.y < b.y ∨ (a.y = b.y ∧ a.x < b.x)

/-! ## IEEE-754 binary32 arithmetic

The program computes scale factors and vertex positions in `float`.  A finite
binary32 value is represented by the rational number it denotes; an operation
is the exact rational operation followed by rounding to nearest, ties to even,
with 24 significant bits and a least exponent of -149 (subnormals).  A result
that is not a finite number (overflow to infinity, division by zero, NaN) is
`none`; in the functions embedded below such a value is never turned back into
a finite one.  The two zeros of binary32 are not distinguished.  Every `float`
expression is taken to be evaluated in binary32, without excess precision, as on
x86-64 and AArch64. -/

/-- Auxiliary for `log2Nat`: halve until below 2, at most `fuel` times. -/
def log2Aux : Nat → Nat → Nat
  | 0, _ => 0
  | fuel + 1, n => if n < 2 then 0 else log2Aux fuel (n / 2) + 1

/-- Floor of the binary logarithm of a natural number (0 for 0). -/
def log2Nat (n : Nat) : Nat := log2Aux n n

namespace F32

/-- Floor of the binary logarithm of `|q|`, for a rational `q ≠ 0`. -/
def ilog2 (q : ℚ) : ℤ :=
  let c : ℤ := (log2Nat q.num.natAbs : ℤ) - (log2Nat q.den : ℤ)
  if (2 : ℚ) ^ c ≤ |q| then c else c - 1

/-- Exponent of the unit in the last place used to round `q`. -/
def ulpExp (q : ℚ) : ℤ := max (ilog2 q - 23) (-149)

/-- Round to nearest, ties to even, of a non-negative rational to an integer. -/
def roundEven (t : ℚ) : ℤ :=
  let f : ℤ := ⌊t⌋
  if t - f < 1 / 2 then f
  else if 1 / 2 < t - f then f + 1
  else if f % 2 = 0 then f else f + 1

/-- Rounding of a rational to binary32 precision, the exponent range being
unbounded above. -/
def roundFinite (q : ℚ) : ℚ :=
  if q = 0 then 0
  else (if q < 0 then -1 else 1) * (roundEven (|q| / (2 : ℚ) ^ ulpExp q) : ℚ) * (2 : ℚ) ^ ulpExp q

/-- Rounding of an exact result to binary32; `none` when the result overflows. -/
def round (q : ℚ) : Option ℚ :=
  if |roundFinite q| < (2 : ℚ) ^ (128 : ℕ) then some (roundFinite q) else none

/-- Conversion `float(i)` of an `int`. -/
def ofInt (i : Int) : ℚ := roundFinite i

/-- Product `a * b` of two floats. -/
def mul (a b : ℚ) : Option ℚ := round (a * b)

/-- Quotient `a / b` of two floats; dividing by zero gives no finite number. -/
def div (a b : ℚ) : Option ℚ := if b = 0 then none else round (a / b)

/-- Difference `a - b` of two floats. -/
def sub (a b : ℚ) : Option ℚ := round (a - b)

/-- Truncation toward zero of a rational. -/
def trunc (q : ℚ) : Int := if 0 ≤ q then ⌊q⌋ else ⌈q⌉

/-- Conversion `int(a)` of a float: truncation toward zero; the behaviour is
undefined when the truncated value does not fit an `int`. -/
def toInt (a : ℚ) : Option Int :=
  if -2147483648 ≤ trunc a ∧ trunc a ≤ 2147483647 then some (trunc a) else none

end F32

/-! ## Geometry (`scaleToFB`, lines 79-81, and `quadUpdate`, lines 222-237) -/

/-- One field of `scaleToFB`: `int(v * s)` for an `int` field `v` and a `float` factor `s`. -/
def scaleField (v : Int) (s : ℚ) : Option Int :=
  (F32.mul (F32.ofInt v) s).bind F32.toInt

/-- Function `scaleToFB` (lines 79-81):
`return { int(r.x * sx), int(r.y * sy), int(r.w * sx), int(r.h * sy) };`. -/
def scaleToFB (r : Rect) (sx sy : ℚ) : Option Rect :=
  match scaleField r.x sx, scaleField r.y sy, scaleField r.w sx, scaleField r.h sy with
  | some x, some y, some w, some h => some ⟨x, y, w, h⟩
  | _, _, _, _ => none

/-- The expression `(2.0f * v / screen) - 1.0f` of lines 223 and 225. -/
def ndcX (v screen : Int) : Option ℚ :=
  ((F32.mul 2 (F32.ofInt v)).bind (fun t => F32.div t (F32.ofInt screen))).bind
    (fun t => F32.sub t 1)

/-- The expression `1.0f - (2.0f * v / screen)` of lines 224 and 226. -/
def ndcY (v screen : Int) : Option ℚ :=
  ((F32.mul 2 (F32.ofInt v)).bind (fun t => F32.div t (F32.ofInt screen))).bind
    (fun t => F32.sub 1 t)

/-- The four corner coordinates `x0, y0, x1, y1` computed by `quadUpdate` (lines 223-226). -/
structure QuadCorners where
  x0 : ℚ
  y0 : ℚ
  x1 : ℚ
  y1 : ℚ
deriving DecidableEq

/-- Lines 223-226 of `quadUpdate`; `none` when a coordinate is not a finite number or
an `int` sum overflows. -/
def quadCorners (screenW screenH : Int) (r : Rect) : Option QuadCorners :=
  match ndcX r.x screenW, ndcY r.y screenH,
      (intAdd r.x r.w).bind (fun v => ndcX v screenW),
      (intAdd r.y r.h).bind (fun v => ndcY v screenH) with
  | some x0, some y0, some x1, some y1 => some ⟨x0, y0, x1, y1⟩
  | _, _, _, _ => none

/-- Vertex of the quad: position `(x, y)` and texture coordinate `(u, v)`. -/
structure Vertex where
  x : ℚ
  y : ℚ
  u : ℚ
  v : ℚ
deriving DecidableEq

/-- Function `quadUpdate` (lines 222-237): the array `verts` written to the vertex
buffer, as four vertices in the order of the source. -/
def quadUpdate (screenW screenH : Int) (r : Rect) : Option (List Vertex) :=
  (quadCorners screenW screenH r).map (fun c =>
    [⟨c.x0, c.y1, 0, 1⟩, ⟨c.x0, c.y0, 0, 0⟩, ⟨c.x1, c.y1, 1, 1⟩, ⟨c.x1, c.y0, 1, 0⟩])

/-! ## Capture resource (`Capture`, `releaseCapture`, `makeCapture`, lines 160-206) -/

/-- Capture of the program (`struct Capture`, lines 160-165); a handle is 0 when absent. -/
structure Capture where
  xpixmap : Nat
  glxpixmap : Nat
  texture : Nat
  w : Int
  h : Int
deriving DecidableEq, Repr

/-- Calls into Xlib, GLX, OpenGL, GLFW and the mask analysis that the capture
manager and the frame loop perform, with the handles they are given or return. -/
inductive GfxCall where
  | glBindTexture (texture : Nat)
  | glXReleaseTexImageEXT (glxpixmap : Nat)
  | glXDestroyPixmap (glxpixmap : Nat)
  | XFreePixmap (xpixmap : Nat)
  | glDeleteTextures (texture : Nat)
  | XCompositeRedirectWindow
  | XGetWindowAttributes
  | XCompositeNameWindowPixmap (result : Nat)
  | glXCreatePixmap (xpixmap : Nat) (result : Nat)
  | glGenTextures (result : Nat)
  | glTexParameteri
  | glXBindTexImageEXT (glxpixmap : Nat)
  | glGetError
  | applyOpaqueInputRegion (srcPixmap : Nat) (w h step : Int)
  | glfwPollEvents
  | getWindowRect
  | glfwGetFramebufferSize
  | glViewport (w h : Int)
  | glClear
  | quadUpdate (screenW screenH : Int) (r : Rect)
  | glUseProgram
  | glActiveTexture
  | glBindVertexArray
  | glDrawArrays
  | glfwSwapBuffers
  | sleepFor (ms : Nat)
deriving DecidableEq, Repr

/-- Function `releaseCapture` (lines 167-173): the calls it performs, in order, and the
capture afterwards.  `haveRelease` says whether the entry point
`glXReleaseTexImageEXT` has been loaded. -/
def releaseCapture (haveRelease : Bool) (cap : Capture) : List GfxCall × Capture :=
  let c1 : List GfxCall :=
    if haveRelease && decide (cap.glxpixmap ≠ 0) then [.glXReleaseTexImageEXT cap.glxpixmap] else []
  let c2 : List GfxCall :=
    if cap.glxpixmap ≠ 0 then [.glXDestroyPixmap cap.glxpixmap] else []
  let cap2 : Capture := if cap.glxpixmap ≠ 0 then { cap with glxpixmap := 0 } else cap
  let c3 : List GfxCall :=
    if cap2.xpixmap ≠ 0 then [.XFreePixmap cap2.xpixmap] else []
  let cap3 : Capture := if cap2.xpixmap ≠ 0 then { cap2 with xpixmap := 0 } else cap2
  let c4 : List GfxCall :=
    if cap3.texture ≠ 0 then [.glDeleteTextures cap3.texture] else []
  let cap4 : Capture := if cap3.texture ≠ 0 then { cap3 with texture := 0 } else cap3
  (c1 ++ c2 ++ c3 ++ c4, cap4)

/-- What the X server and OpenGL answer during one call of `makeCapture`. -/
structure CaptureEnv where
  width : Int
  height : Int
  xpixmap : Nat
  glxpixmap : Nat
  texture : Nat
  glError : Nat
deriving DecidableEq, Repr

/-- Function `makeCapture` (lines 175-206): the calls it performs, in order, and the
capture it returns; `none` when it ends the process with `std::exit(1)`. -/
def makeCapture (env : CaptureEnv) : List GfxCall × Option Capture :=
  let t1 : List GfxCall :=
    [.XCompositeRedirectWindow, .XGetWindowAttributes, .XCompositeNameWindowPixmap env.xpixmap]
  if env.xpixmap = 0 then (t1, none)
  else
    let t2 := t1 ++ [.glXCreatePixmap env.xpixmap env.glxpixmap]
    if env.glxpixmap = 0 then (t2, none)
    else
      let t3 := t2 ++ [.glGenTextures env.texture, .glBindTexture env.texture,
        .glTexParameteri, .glTexParameteri, .glXBindTexImageEXT env.glxpixmap, .glGetError]
      if env.glError ≠ 0 then (t3, none)
      else (t3, some ⟨env.xpixmap, env.glxpixmap, env.texture, env.width, env.height⟩)

/-! ## Frame loop (`main`, lines 494-540) -/

/-- The call creates a handle of a capture. -/
def GfxCall.isAcquire : GfxCall → Bool
  | .XCompositeNameWindowPixmap _ => true
  | .glXCreatePixmap _ _ => true
  | .glGenTextures _ => true
  | _ => false

/-- The handles that exist: X pixmaps, GLX pixmaps and textures that were created
and have not been released. -/
structure LiveHandles where
  xpixmaps : List Nat
  glxpixmaps : List Nat
  textures : List Nat
deriving DecidableEq, Repr

/-- Effect of one call on the live handles. -/
def LiveHandles.step (l : LiveHandles) : GfxCall → LiveHandles
  | .XCompositeNameWindowPixmap r => { l with xpixmaps := r :: l.xpixmaps }
  | .glXCreatePixmap _ r => { l with glxpixmaps := r :: l.glxpixmaps }
  | .glGenTextures r => { l with textures := r :: l.textures }
  | .XFreePixmap x => { l with xpixmaps := l.xpixmaps.erase x }
  | .glXDestroyPixmap g => { l with glxpixmaps := l.glxpixmaps.erase g }
  | .glDeleteTextures t => { l with textures := l.textures.erase t }
  | _ => l

/-- The inner loop on sample numbers instead of columns: `op k` says whether sample
`k` is solid, the state is the sample number at which the current run started, and the
result is the final state with the runs `(first, next)` that were closed by a chroma
sample, `next` being the number of that chroma sample. -/
def absScan (op : Nat → Bool) : Nat → Nat → Option Nat → Option Nat × List (Nat × Nat)
  | 0, _, st => (st, [])
  | m + 1, k, st =>
    if op k then absScan op m (k + 1) (some (st.getD k))
    else
      match st with
      | some s => ((absScan op m (k + 1) none).1, (s, k) :: (absScan op m (k + 1) none).2)
      | none => absScan op m (k + 1) none

/-- Value of `runStart` for a run state on sample numbers. -/
def encRun (step : Int) : Option Nat → Int
  | none => -1
  | some s => (s : Int) * step

/-- Rectangle pushed at lines 329-333 for the run of samples `p.1 .. p.2 - 1`. -/
def closedRect (step y : Int) (p : Nat × Nat) : XRectangle :=
  ⟨toShort ((p.1 : Int) * step), toShort y,
    toUShort ((p.2 : Int) * step - (p.1 : Int) * step), toUShort step⟩

/-- Rectangles pushed at lines 337-343 for a final run state. -/
def flushRects (w step y : Int) : Option Nat → List XRectangle
  | none => []
  | some s => [⟨toShort ((s : Int) * step), toShort y, toUShort (w - (s : Int) * step), toUShort step⟩]

/-- Number of samples `0, step, 2 * step, ...` below `len`. -/
def numSamples (len step : Int) : Nat := ((len + step - 1) / step).toNat

/-- Rectangles of one row in terms of `absScan`. -/
def rowOut (img : XImage) (w step y : Int) : List XRectangle :=
  (absScan (sampleSolid img step y) (numSamples w step) 0 none).2.map (closedRect step y) ++
    flushRects w step y (absScan (sampleSolid img step y) (numSamples w step) 0 none).1

/-- Invariant of the run state before sample `k`: without a run, the previous sample
(if any) is chroma; with a run started at `s`, the samples `s .. k - 1` are solid and
the sample before `s` (if any) is chroma. -/
def RunInv (op : Nat → Bool) (k : Nat) : Option Nat → Prop
  | none => k = 0 ∨ op (k - 1) = false
  | some s => s < k ∧ (∀ t, s ≤ t → t < k → op t = true) ∧ (s = 0 ∨ op (s - 1) = false)

/-- The samples `i .. e - 1` are a maximal run that is ended by the chroma sample `e`. -/
def ClosedRun (op : Nat → Bool) (i e : Nat) : Prop :=
  i < e ∧ (∀ t, i ≤ t → t < e → op t = true) ∧ (i = 0 ∨ op (i - 1) = false) ∧ op e = false

/-- All runs of a row of `n` samples as pairs `(first, next)`: the runs closed by a
chroma sample, then the run that reaches the end of the row, if any. -/
def rowRuns (op : Nat → Bool) (n : Nat) : List (Nat × Nat) :=
  (absScan op n 0 none).2 ++
    (match (absScan op n 0 none).1 with
     | none => []
     | some s => [(s, n)])

/-- Rectangle of the run of samples `i .. j` of the row `y` as the program builds it:
it starts at the column of sample `i`, ends at the column of the sample after `j` or at
the width `w` if that comes first, and is `step` high. -/
def runRect (w step y : Int) (i j : Nat) : XRectangle :=
  ⟨(i : Int) * step, y, min (((j : Int) + 1) * step) w - (i : Int) * step, step⟩

/-- Rectangle of the run of samples `i .. j` of the row `y` in the words of the
specification: the exclusive right end is the column of the last solid sample plus
the stride. -/
def claimedRunRect (step y : Int) (i j : Nat) : XRectangle :=
  ⟨(i : Int) * step, y, ((j : Int) * step + step) - (i : Int) * step, step⟩

/-- Order of the release calls in the words of the specification: the texture is
unbound from the pixmap and deleted first, then the GLX pixmap is destroyed, then the
X pixmap is freed. -/
def claimedReleaseOrder (cap : Capture) : List GfxCall :=
  [.glXReleaseTexImageEXT cap.glxpixmap, .glDeleteTextures cap.texture,
    .glXDestroyPixmap cap.glxpixmap, .XFreePixmap cap.xpixmap]

end ChromaOverlay

/-! # Theorems -/

namespace ChromaOverlay

/-! ## Mask analysis: the loops in terms of sample numbers -/

theorem numSamples_spec (len step : Int) (hstep : 1 ≤ step) (i : Nat) :
    (i : Int) * step < len ↔ i < numSamples len step := by
  unfold numSamples
  have hpos : 0 < step := by omega
  have h1 : (len + step - 1) / step = (len - 1) / step + 1 := by
    have : len + step - 1 = (len - 1) + 1 * step := by ring
    rw [this, Int.add_mul_ediv_right _ _ (by omega)]
  rw [h1]
  constructor
  · intro h
    have h2 : (i : Int) ≤ (len - 1) / step := by
      rw [Int.le_ediv_iff_mul_le hpos]; omega
    omega
  · intro h
    have h3 : (i : Int) < (len - 1) / step + 1 := by
      by_contra hc
      have : ((len - 1) / step + 1).toNat ≤ i := by
        rw [Int.toNat_le]; omega
      omega
    have h2 : (i : Int) ≤ (len - 1) / step := by omega
    rw [Int.le_ediv_iff_mul_le hpos] at h2
    omega

theorem encRun_none_neg (step : Int) : encRun step none < 0 := by
  simp [encRun]

theorem encRun_some_nonneg (step : Int) (hstep : 1 ≤ step) (s : Nat) :
    0 ≤ encRun step (some s) := by
  simp only [encRun]
  positivity

theorem scanRow_absScan (img : XImage) (w step y : Int) (hstep : 1 ≤ step)
    (hov : w + step ≤ 2147483648) :
    ∀ (m k fuel : Nat) (st : Option Nat) (rects : List XRectangle), m < fuel →
      (∀ i : Nat, i < m → ((k + i : Nat) : Int) * step < w) →
      ¬ (((k + m : Nat) : Int) * step < w) →
      scanRow img w step y fuel ((k : Int) * step) (encRun step st) rects =
        some (encRun step (absScan (sampleSolid img step y) m k st).1,
          rects ++ (absScan (sampleSolid img step y) m k st).2.map (closedRect step y)) := by
  intro m
  induction m with
  | zero =>
    intro k fuel st rects hf _ hend
    obtain ⟨f, rfl⟩ : ∃ f, fuel = f + 1 := ⟨fuel - 1, by omega⟩
    have hend1 : ¬ ((k : Int) * step < w) := by simpa using hend
    simp [scanRow, absScan, hend1]
  | succ m ih =>
    intro k fuel st rects hf hin hend
    obtain ⟨f, rfl⟩ : ∃ f, fuel = f + 1 := ⟨fuel - 1, by omega⟩
    have hk : (k : Int) * step < w := by simpa using hin 0 (by omega)
    have hnext : (k : Int) * step + step = ((k + 1 : Nat) : Int) * step := by
      push_cast; ring
    have hin1 : ∀ i : Nat, i < m → ((k + 1 + i : Nat) : Int) * step < w := by
      intro i hi
      have := hin (i + 1) (by omega)
      have e : k + (i + 1) = k + 1 + i := by omega
      rwa [e] at this
    have hend1 : ¬ (((k + 1 + m : Nat) : Int) * step < w) := by
      have e : k + (m + 1) = k + 1 + m := by omega
      rwa [e] at hend
    have hsol : pixelSolid (img ((k : Int) * step) y) = sampleSolid img step y k := rfl
    have hadd : intAdd ((k : Int) * step) step = some (((k + 1 : Nat) : Int) * step) := by
      have h0 : 0 ≤ (k : Int) * step := by positivity
      unfold intAdd
      rw [if_pos (by constructor <;> omega), hnext]
    rw [scanRow, if_pos hk]
    simp only [hsol, hadd]
    cases hop : sampleSolid img step y k with
    | true =>
      cases st with
      | none =>
        have e1 : encRun step (some k) = (k : Int) * step := rfl
        simp only [absScan, hop, encRun_none_neg, Bool.true_and, decide_True, if_true,
          Bool.not_true, Bool.false_and, Option.getD_none]
        simpa [e1] using ih (k + 1) f (some k) rects (by omega) hin1 hend1
      | some s =>
        have hs : ¬ (encRun step (some s) < 0) := by
          have := encRun_some_nonneg step hstep s; omega
        simp only [absScan, hop, hs, Bool.true_and, decide_False, if_false,
          Bool.not_true, Bool.false_and, Option.getD_some]
        simpa using ih (k + 1) f (some s) rects (by omega) hin1 hend1
    | false =>
      cases st with
      | none =>
        have hs : ¬ (encRun step none ≥ 0) := by
          have := encRun_none_neg step; omega
        simp only [absScan, hop, hs, Bool.false_and, if_false, Bool.not_false, Bool.true_and,
          decide_False]
        simpa [encRun] using ih (k + 1) f none rects (by omega) hin1 hend1
      | some s =>
        have hs : encRun step (some s) ≥ 0 := encRun_some_nonneg step hstep s
        simp only [absScan, hop, hs, Bool.false_and, if_false, Bool.not_false, Bool.true_and,
          decide_True, if_true]
        have := ih (k + 1) f none
          (rects ++ [⟨toShort (encRun step (some s)), toShort y,
            toUShort ((k : Int) * step - encRun step (some s)), toUShort step⟩])
          (by omega) hin1 hend1
        have hs1 : 0 ≤ (s : Int) * step := hs
        simpa [encRun, closedRect, hs1] using this

theorem numSamples_le (len step : Int) (hstep : 1 ≤ step) :
    numSamples len step ≤ len.toNat := by
  by_contra hc
  have h1 : len.toNat < numSamples len step := by omega
  have h2 := (numSamples_spec len step hstep len.toNat).2 h1
  have h3 : (len.toNat : Int) ≤ (len.toNat : Int) * step := by
    have : (0 : Int) ≤ (len.toNat : Int) := by positivity
    nlinarith
  have h4 : len ≤ (len.toNat : Int) := Int.self_le_toNat len
  omega

theorem rowBody_eq (img : XImage) (w step y : Int) (hstep : 1 ≤ step)
    (hov : w + step ≤ 2147483648) (rects : List XRectangle) :
    rowBody img w step y rects = some (rects ++ rowOut img w step y) := by
  have hfuel : numSamples w step < w.toNat + 1 := by
    have := numSamples_le w step hstep; omega
  have h := scanRow_absScan img w step y hstep hov (numSamples w step) 0 (w.toNat + 1) none
    rects hfuel
    (by
      intro i hi
      have := (numSamples_spec w step hstep i).2 hi
      simpa using this)
    (by
      intro hc
      have h0 : ((numSamples w step : Nat) : Int) * step < w := by simpa using hc
      have := (numSamples_spec w step hstep (numSamples w step)).1 h0
      omega)
  have e0 : ((0 : Nat) : Int) * step = 0 := by simp
  rw [e0] at h
  have e1 : encRun step none = -1 := rfl
  rw [e1] at h
  unfold rowBody
  rw [h]
  unfold rowOut
  cases hst : (absScan (sampleSolid img step y) (numSamples w step) 0 none).1 with
  | none =>
    have hneg : ¬ (encRun step none ≥ 0) := by
      have := encRun_none_neg step; omega
    simp [hneg, flushRects]
  | some s =>
    have hpos : 0 ≤ (s : Int) * step := encRun_some_nonneg step hstep s
    simp [hpos, flushRects, encRun]

theorem scanRows_eq (img : XImage) (w h step : Int) (hstep : 1 ≤ step)
    (hovw : w + step ≤ 2147483648) (hovh : h + step ≤ 2147483648) :
    ∀ (m k fuel : Nat) (rects : List XRectangle), m < fuel →
      (∀ i : Nat, i < m → ((k + i : Nat) : Int) * step < h) →
      ¬ (((k + m : Nat) : Int) * step < h) →
      scanRows img w h step fuel ((k : Int) * step) rects =
        some (rects ++
          (List.range' k m).flatMap (fun r => rowOut img w step ((r : Int) * step))) := by
  intro m
  induction m with
  | zero =>
    intro k fuel rects hf _ hend
    obtain ⟨f, rfl⟩ : ∃ f, fuel = f + 1 := ⟨fuel - 1, by omega⟩
    have hend1 : ¬ ((k : Int) * step < h) := by simpa using hend
    simp [scanRows, hend1]
  | succ m ih =>
    intro k fuel rects hf hin hend
    obtain ⟨f, rfl⟩ : ∃ f, fuel = f + 1 := ⟨fuel - 1, by omega⟩
    have hk : (k : Int) * step < h := by simpa using hin 0 (by omega)
    have hnext : (k : Int) * step + step = ((k + 1 : Nat) : Int) * step := by
      push_cast; ring
    have hin1 : ∀ i : Nat, i < m → ((k + 1 + i : Nat) : Int) * step < h := by
      intro i hi
      have := hin (i + 1) (by omega)
      have e : k + (i + 1) = k + 1 + i := by omega
      rwa [e] at this
    have hend1 : ¬ (((k + 1 + m : Nat) : Int) * step < h) := by
      have e : k + (m + 1) = k + 1 + m := by omega
      rwa [e] at hend
    have hadd : intAdd ((k : Int) * step) step = some (((k + 1 : Nat) : Int) * step) := by
      have h0 : 0 ≤ (k : Int) * step := by positivity
      unfold intAdd
      rw [if_pos (by constructor <;> omega), hnext]
    rw [scanRows, if_pos hk, rowBody_eq img w step _ hstep hovw]
    simp only [hadd]
    rw [ih (k + 1) f _ (by omega) hin1 hend1, List.range'_succ]
    simp [List.append_assoc]

theorem maskRects_eq (img : XImage) (w h step : Int) (hstep : 1 ≤ step) (hh : 0 ≤ h)
    (hovw : w + step ≤ 2147483648) (hovh : h + step ≤ 2147483648)
    (hcap : (Int.tdiv h step + 1) * 16 ≤ 2147483647) :
    maskRects img w h step =
      some ((List.range (numSamples h step)).flatMap
        (fun r => rowOut img w step ((r : Int) * step))) := by
  have hfuel : numSamples h step < h.toNat + 1 := by
    have := numSamples_le h step hstep; omega
  have hres : ¬ ((Int.tdiv h step + 1) * 16 < 0) := by
    have := Int.tdiv_nonneg hh (show (0 : Int) ≤ step by omega)
    omega
  have hne : step ≠ 0 := by omega
  have h1 := scanRows_eq img w h step hstep hovw hovh (numSamples h step) 0 (h.toNat + 1) []
    hfuel
    (by
      intro i hi
      have := (numSamples_spec h step hstep i).2 hi
      simpa using this)
    (by
      intro hc
      have h0 : ((numSamples h step : Nat) : Int) * step < h := by simpa using hc
      have := (numSamples_spec h step hstep (numSamples h step)).1 h0
      omega)
  have e0 : ((0 : Nat) : Int) * step = 0 := by simp
  rw [e0] at h1
  unfold maskRects
  rw [if_neg hne, if_neg hres, if_neg (not_lt.2 hcap), h1, List.range_eq_range']
  simp

theorem reserve_size_le (h step : Int) (hstep : 1 ≤ step) (hh0 : 0 ≤ h)
    (hcap : (h / step + 1) * 16 ≤ 2147483647) :
    (Int.tdiv h step + 1) * 16 ≤ 2147483647 := by
  rw [Int.tdiv_eq_ediv hh0 (by omega)]
  exact hcap

theorem reserve_size_small (h step : Int) (hstep : 1 ≤ step) (hh0 : 0 ≤ h)
    (hh : h ≤ 32768) : (Int.tdiv h step + 1) * 16 ≤ 2147483647 := by
  apply reserve_size_le h step hstep hh0
  have := Int.ediv_le_self step hh0
  omega

/-! ## Mask analysis: the runs found by the scan -/

theorem run_start_unique (op : Nat → Bool) (i s e : Nat)
    (hi : ∀ t, i ≤ t → t < e → op t = true) (hi0 : i = 0 ∨ op (i - 1) = false)
    (hs : ∀ t, s ≤ t → t < e → op t = true) (hs0 : s = 0 ∨ op (s - 1) = false)
    (hie : i < e) (hse : s < e) : i = s := by
  rcases Nat.lt_trichotomy i s with h | h | h
  · rcases hs0 with h0 | h0
    · omega
    · have := hi (s - 1) (by omega) (by omega)
      rw [this] at h0; cases h0
  · exact h
  · rcases hi0 with h0 | h0
    · omega
    · have := hs (i - 1) (by omega) (by omega)
      rw [this] at h0; cases h0

theorem absScan_spec (op : Nat → Bool) :
    ∀ (m k : Nat) (st : Option Nat), RunInv op k st →
      RunInv op (k + m) (absScan op m k st).1 ∧
      (∀ i e, (i, e) ∈ (absScan op m k st).2 ↔ ClosedRun op i e ∧ k ≤ e ∧ e < k + m) ∧
      (absScan op m k st).2.Pairwise (fun a b => a.1 < b.1) := by
  intro m
  induction m with
  | zero =>
    intro k st hinv
    refine ⟨by simpa [absScan] using hinv, ?_, by simp [absScan]⟩
    intro i e
    simp only [absScan, List.not_mem_nil, false_iff]
    rintro ⟨_, h1, h2⟩
    omega
  | succ m ih =>
    intro k st hinv
    have ek : k + (m + 1) = k + 1 + m := by omega
    cases hop : op k with
    | true =>
      have hinv1 : RunInv op (k + 1) (some (st.getD k)) := by
        cases st with
        | none =>
          refine ⟨by simp, ?_, ?_⟩
          · intro t h1 h2
            have : t = k := by simp at h1; omega
            rw [this]; exact hop
          · simpa [RunInv] using hinv
        | some s =>
          obtain ⟨h1, h2, h3⟩ := hinv
          refine ⟨by simp; omega, ?_, by simpa using h3⟩
          intro t ht1 ht2
          simp only [Option.getD_some] at ht1
          by_cases hk : t < k
          · exact h2 t ht1 hk
          · have : t = k := by omega
            rw [this]; exact hop
      obtain ⟨ih1, ih2, ih3⟩ := ih (k + 1) (some (st.getD k)) hinv1
      have hdef : absScan op (m + 1) k st = absScan op m (k + 1) (some (st.getD k)) := by
        simp [absScan, hop]
      rw [hdef, ek]
      refine ⟨ih1, ?_, ih3⟩
      intro i e
      rw [ih2]
      constructor
      · rintro ⟨hc, h1, h2⟩
        exact ⟨hc, by omega, h2⟩
      · rintro ⟨hc, h1, h2⟩
        refine ⟨hc, ?_, h2⟩
        by_contra hne
        have : e = k := by omega
        rw [this] at hc
        have := hc.2.2.2
        rw [hop] at this; cases this
    | false =>
      have hinv1 : RunInv op (k + 1) none := by
        right; simpa using hop
      obtain ⟨ih1, ih2, ih3⟩ := ih (k + 1) none hinv1
      cases st with
      | none =>
        have hdef : absScan op (m + 1) k none = absScan op m (k + 1) none := by
          simp [absScan, hop]
        rw [hdef, ek]
        refine ⟨ih1, ?_, ih3⟩
        intro i e
        rw [ih2]
        constructor
        · rintro ⟨hc, h1, h2⟩
          exact ⟨hc, by omega, h2⟩
        · rintro ⟨hc, h1, h2⟩
          refine ⟨hc, ?_, h2⟩
          by_contra hne
          have he : e = k := by omega
          rw [he] at hc
          obtain ⟨hc1, hc2, -, -⟩ := hc
          have hprev := hc2 (k - 1) (by omega) (by omega)
          rcases hinv with h0 | h0
          · omega
          · rw [hprev] at h0; cases h0
      | some s =>
        obtain ⟨hs1, hs2, hs3⟩ := hinv
        have hdef : absScan op (m + 1) k (some s) =
            ((absScan op m (k + 1) none).1, (s, k) :: (absScan op m (k + 1) none).2) := by
          simp [absScan, hop]
        rw [hdef, ek]
        refine ⟨ih1, ?_, ?_⟩
        · intro i e
          rw [List.mem_cons, ih2]
          constructor
          · rintro (heq | ⟨hc, h1, h2⟩)
            · have hi : i = s := congrArg Prod.fst heq
              have he : e = k := congrArg Prod.snd heq
              subst hi; subst he
              exact ⟨⟨hs1, hs2, hs3, hop⟩, le_refl _, by omega⟩
            · exact ⟨hc, by omega, h2⟩
          · rintro ⟨hc, h1, h2⟩
            by_cases he : e = k
            · left
              subst he
              obtain ⟨hc1, hc2, hc3, -⟩ := hc
              have := run_start_unique op i s e hc2 hc3 hs2 hs3 hc1 hs1
              rw [this]
            · right
              exact ⟨hc, by omega, h2⟩
        · rw [List.pairwise_cons]
          refine ⟨?_, ih3⟩
          rintro ⟨i, e⟩ hmem
          obtain ⟨hc, h1, -⟩ := (ih2 i e).1 hmem
          show s < i
          by_contra hle
          have := hc.2.1 k (by omega) (by omega)
          rw [hop] at this; cases this

theorem rowRuns_spec (op : Nat → Bool) (n : Nat) :
    (∀ i e, (i, e) ∈ rowRuns op n ↔
      (i < e ∧ e ≤ n ∧ (∀ t, i ≤ t → t < e → op t = true) ∧
        (i = 0 ∨ op (i - 1) = false) ∧ (e < n → op e = false))) ∧
    (rowRuns op n).Pairwise (fun a b => a.1 < b.1) := by
  obtain ⟨h1, h2, h3⟩ := absScan_spec op n 0 none (Or.inl rfl)
  rw [Nat.zero_add] at h1
  unfold rowRuns
  cases hst : (absScan op n 0 none).1 with
  | none =>
    rw [hst] at h1
    simp only [List.append_nil]
    refine ⟨?_, h3⟩
    intro i e
    rw [h2]
    constructor
    · rintro ⟨⟨c1, c2, c3, c4⟩, -, hlt⟩
      exact ⟨c1, by omega, c2, c3, fun _ => c4⟩
    · rintro ⟨c1, c2, c3, c4, c5⟩
      have hlt : e < n := by
        by_contra hc
        have he : e = n := by omega
        subst he
        have := c3 (e - 1) (by omega) (by omega)
        rcases h1 with h0 | h0
        · omega
        · rw [this] at h0; cases h0
      exact ⟨⟨c1, c3, c4, c5 hlt⟩, Nat.zero_le _, by omega⟩
  | some s =>
    rw [hst] at h1
    obtain ⟨s1, s2, s3⟩ := h1
    constructor
    · intro i e
      rw [List.mem_append, h2, List.mem_singleton]
      constructor
      · rintro (⟨⟨c1, c2, c3, c4⟩, -, hlt⟩ | heq)
        · exact ⟨c1, by omega, c2, c3, fun _ => c4⟩
        · have hi : i = s := congrArg Prod.fst heq
          have he : e = n := congrArg Prod.snd heq
          subst hi; subst he
          exact ⟨s1, le_refl _, s2, s3, fun h => absurd h (lt_irrefl _)⟩
      · rintro ⟨c1, c2, c3, c4, c5⟩
        by_cases hlt : e < n
        · left
          exact ⟨⟨c1, c3, c4, c5 hlt⟩, Nat.zero_le _, by omega⟩
        · right
          have he : e = n := by omega
          subst he
          have := run_start_unique op i s e c3 c4 s2 s3 c1 s1
          rw [this]
    · rw [List.pairwise_append]
      refine ⟨h3, by simp, ?_⟩
      rintro ⟨i, e⟩ hmem ⟨a, b⟩ hb
      rw [List.mem_singleton] at hb
      have ha : a = s := congrArg Prod.fst hb
      subst ha
      obtain ⟨⟨c1, -, -, c4⟩, -, hlt⟩ := (h2 i e).1 hmem
      show i < a
      by_contra hle
      by_cases hea : e < a
      · omega
      · have := s2 e (by omega) (by omega)
        rw [this] at c4; cases c4

theorem toShort_id (v : Int) (h1 : -32768 ≤ v) (h2 : v < 32768) : toShort v = v := by
  unfold toShort; omega

theorem toUShort_id (v : Int) (h1 : 0 ≤ v) (h2 : v < 65536) : toUShort v = v := by
  unfold toUShort; omega

theorem sample_col_mono (step : Int) (hstep : 1 ≤ step) (a b : Nat) (h : a ≤ b) :
    (a : Int) * step ≤ (b : Int) * step := by
  have : (a : Int) ≤ (b : Int) := by exact_mod_cast h
  nlinarith

theorem sample_col_strict (step : Int) (hstep : 1 ≤ step) (a b : Nat) (h : a < b) :
    (a : Int) * step < (b : Int) * step := by
  have : (a : Int) < (b : Int) := by exact_mod_cast h
  nlinarith

theorem rowOut_eq_map (img : XImage) (w step y : Int) (hstep : 1 ≤ step)
    (hstep2 : step ≤ 65535) (hw : w ≤ 32768) (hy0 : 0 ≤ y) (hy : y < 32768) :
    rowOut img w step y =
      (rowRuns (sampleSolid img step y) (numSamples w step)).map
        (fun p => runRect w step y p.1 (p.2 - 1)) := by
  obtain ⟨h1, h2, -⟩ := absScan_spec (sampleSolid img step y) (numSamples w step) 0 none
    (Or.inl rfl)
  rw [Nat.zero_add] at h1
  unfold rowOut rowRuns
  rw [List.map_append]
  congr 1
  · apply List.map_congr_left
    rintro ⟨i, e⟩ hmem
    obtain ⟨⟨c1, -, -, -⟩, -, hlt⟩ := (h2 i e).1 hmem
    have he : (e : Int) * step < w := (numSamples_spec w step hstep e).2 (by omega)
    have hie : (i : Int) * step ≤ (e : Int) * step := sample_col_mono step hstep i e (by omega)
    have hi0 : 0 ≤ (i : Int) * step := by positivity
    have hcast : (((e - 1 : Nat) : Int) + 1) = (e : Int) := by omega
    simp only [closedRect, runRect, hcast]
    rw [toShort_id _ (by omega) (by omega), toShort_id _ (by omega) (by omega),
      toUShort_id _ (by omega) (by omega), toUShort_id _ (by omega) (by omega),
      min_eq_left (by omega)]
  · cases hst : (absScan (sampleSolid img step y) (numSamples w step) 0 none).1 with
    | none => simp [flushRects]
    | some s =>
      rw [hst] at h1
      obtain ⟨s1, -, -⟩ := h1
      have hs : (s : Int) * step < w := (numSamples_spec w step hstep s).2 s1
      have hn : ¬ (((numSamples w step : Nat) : Int) * step < w) := by
        intro hc
        have := (numSamples_spec w step hstep (numSamples w step)).1 hc
        omega
      have hi0 : 0 ≤ (s : Int) * step := by positivity
      have hcast : (((numSamples w step - 1 : Nat) : Int) + 1) = (numSamples w step : Int) := by
        omega
      simp only [flushRects, runRect, List.map_cons, List.map_nil, hcast]
      rw [toShort_id _ (by omega) (by omega), toShort_id _ (by omega) (by omega),
        toUShort_id _ (by omega) (by omega), toUShort_id _ (by omega) (by omega),
        min_eq_right (by omega)]

theorem rowOut_mem (img : XImage) (w step y : Int) (hstep : 1 ≤ step)
    (hstep2 : step ≤ 65535) (hw : w ≤ 32768) (hy0 : 0 ≤ y) (hy : y < 32768)
    (rc : XRectangle) :
    rc ∈ rowOut img w step y ↔
      ∃ i j : Nat, IsMaxRun img w step y i j ∧ rc = runRect w step y i j := by
  rw [rowOut_eq_map img w step y hstep hstep2 hw hy0 hy, List.mem_map]
  obtain ⟨hspec, -⟩ := rowRuns_spec (sampleSolid img step y) (numSamples w step)
  constructor
  · rintro ⟨⟨i, e⟩, hmem, rfl⟩
    obtain ⟨c1, c2, c3, c4, c5⟩ := (hspec i e).1 hmem
    refine ⟨i, e - 1, ⟨by omega, ?_, ?_, c4, ?_⟩, rfl⟩
    · exact (numSamples_spec w step hstep (e - 1)).2 (by omega)
    · intro t ht1 ht2
      exact c3 t ht1 (by omega)
    · intro hlt
      have hcast : (((e - 1 : Nat) : Int) + 1) = ((e : Nat) : Int) := by omega
      rw [hcast] at hlt
      have hen := (numSamples_spec w step hstep e).1 hlt
      have e1 : e - 1 + 1 = e := by omega
      rw [e1]
      exact c5 hen
  · rintro ⟨i, j, ⟨m1, m2, m3, m4, m5⟩, rfl⟩
    refine ⟨(i, j + 1), (hspec i (j + 1)).2 ⟨by omega, ?_, ?_, m4, ?_⟩, by simp⟩
    · have := (numSamples_spec w step hstep j).1 m2
      omega
    · intro t ht1 ht2
      exact m3 t ht1 (by omega)
    · intro hlt
      apply m5
      have := (numSamples_spec w step hstep (j + 1)).2 hlt
      simpa using this

theorem rowOut_sorted (img : XImage) (w step y : Int) (hstep : 1 ≤ step)
    (hstep2 : step ≤ 65535) (hw : w ≤ 32768) (hy0 : 0 ≤ y) (hy : y < 32768) :
    (rowOut img w step y).Pairwise (fun a b => a.y = b.y ∧ a.x < b.x) := by
  rw [rowOut_eq_map img w step y hstep hstep2 hw hy0 hy, List.pairwise_map]
  obtain ⟨-, hsorted⟩ := rowRuns_spec (sampleSolid img step y) (numSamples w step)
  refine hsorted.imp ?_
  rintro ⟨a1, a2⟩ ⟨b1, b2⟩ hlt
  exact ⟨rfl, sample_col_strict step hstep a1 b1 hlt⟩

theorem rowOut_y (img : XImage) (w step y : Int) (hstep : 1 ≤ step)
    (hstep2 : step ≤ 65535) (hw : w ≤ 32768) (hy0 : 0 ≤ y) (hy : y < 32768)
    (rc : XRectangle) (hrc : rc ∈ rowOut img w step y) : rc.y = y := by
  obtain ⟨i, j, -, rfl⟩ := (rowOut_mem img w step y hstep hstep2 hw hy0 hy rc).1 hrc
  rfl

/-! ## C1: one rectangle per maximal run -/

/-- C1 (as amended).  For a capture that fits the 16-bit fields of `XRectangle`
(`w ≤ 32768`, `0 ≤ h ≤ 32768`, `1 ≤ step ≤ 65535`) `applyOpaqueInputRegion` produces a
list of rectangles that is in row-major order (rows top to bottom, within a row left to
right) and whose members are exactly the rectangles `runRect` of the maximal runs of
solid samples of the sampled rows `y = k * step < h`: x is the column of the first
sample of the run, the exclusive right end is the column of the last sample plus `step`,
capped at `w`, y is the row and the height is `step`.  Every rectangle belongs to one
row, so rectangles of different rows are never merged. -/
theorem applyOpaqueInputRegion_runs (img : XImage) (w h step : Int) (shape : List XRectangle)
    (hstep : 1 ≤ step) (hstep2 : step ≤ 65535) (hw : w ≤ 32768) (hh0 : 0 ≤ h)
    (hh : h ≤ 32768) :
    ∃ rects, applyOpaqueInputRegion (some img) w h step shape = some rects ∧
      rects.Pairwise RowMajorLt ∧
      ∀ rc, rc ∈ rects ↔
        ∃ k i j : Nat, (k : Int) * step < h ∧ IsMaxRun img w step ((k : Int) * step) i j ∧
          rc = runRect w step ((k : Int) * step) i j := by
  have hrow : ∀ r : Nat, r ∈ List.range (numSamples h step) →
      0 ≤ (r : Int) * step ∧ (r : Int) * step < 32768 := by
    intro r hr
    have h1 := (numSamples_spec h step hstep r).2 (List.mem_range.1 hr)
    have h2 : 0 ≤ (r : Int) * step := by positivity
    exact ⟨h2, by omega⟩
  refine ⟨(List.range (numSamples h step)).flatMap
    (fun r => rowOut img w step ((r : Int) * step)), ?_, ?_, ?_⟩
  · exact maskRects_eq img w h step hstep hh0 (by omega) (by omega)
      (reserve_size_small h step hstep hh0 hh)
  · rw [List.pairwise_flatMap]
    constructor
    · intro r hr
      obtain ⟨h1, h2⟩ := hrow r hr
      refine (rowOut_sorted img w step _ hstep hstep2 hw h1 h2).imp ?_
      intro a b hab
      exact Or.inr hab
    · refine (List.pairwise_lt_range _).imp_of_mem ?_
      intro a b ha hb hab x hx y hy
      obtain ⟨a1, a2⟩ := hrow a ha
      obtain ⟨b1, b2⟩ := hrow b hb
      left
      rw [rowOut_y img w step _ hstep hstep2 hw a1 a2 x hx,
        rowOut_y img w step _ hstep hstep2 hw b1 b2 y hy]
      exact sample_col_strict step hstep a b hab
  · intro rc
    rw [List.mem_flatMap]
    constructor
    · rintro ⟨r, hr, hmem⟩
      obtain ⟨h1, h2⟩ := hrow r hr
      obtain ⟨i, j, hrun, rfl⟩ := (rowOut_mem img w step _ hstep hstep2 hw h1 h2 rc).1 hmem
      exact ⟨r, i, j, (numSamples_spec h step hstep r).2 (List.mem_range.1 hr), hrun, rfl⟩
    · rintro ⟨k, i, j, hk, hrun, rfl⟩
      have hr : k ∈ List.range (numSamples h step) :=
        List.mem_range.2 ((numSamples_spec h step hstep k).1 hk)
      obtain ⟨h1, h2⟩ := hrow k hr
      exact ⟨k, hr, (rowOut_mem img w step _ hstep hstep2 hw h1 h2 _).2 ⟨i, j, hrun, rfl⟩⟩

/-- Witness for C1 (as amended): a 3 by 1 capture, all solid, sampled with stride 2. -/
theorem applyOpaqueInputRegion_runs_witness :
    ((1 : Int) ≤ 2 ∧ (2 : Int) ≤ 65535 ∧ (3 : Int) ≤ 32768 ∧ (0 : Int) ≤ 1 ∧
      (1 : Int) ≤ 32768) ∧
    ∃ rects, applyOpaqueInputRegion (some (fun _ _ => 0xFFFFFF)) 3 1 2 [] = some rects ∧
      rects.Pairwise RowMajorLt ∧
      ∀ rc, rc ∈ rects ↔
        ∃ k i j : Nat, (k : Int) * 2 < 1 ∧
          IsMaxRun (fun _ _ => 0xFFFFFF) 3 2 ((k : Int) * 2) i j ∧
          rc = runRect 3 2 ((k : Int) * 2) i j :=
  ⟨by decide, applyOpaqueInputRegion_runs (fun _ _ => 0xFFFFFF) 3 1 2 []
    (by decide) (by decide) (by decide) (by decide) (by decide)⟩

/-- Counterexample to C1 as stated.  (1) A 3 by 1 capture, all solid, stride 2: the
samples 0 and 1 (columns 0 and 2) are the one maximal run, the claimed rectangle ends at
column 2 + 2 = 4, the program builds the rectangle that ends at the width 3.
(2) A 1 by 32769 capture with stride 32768 whose row 32768 is solid: the program stores
the row in a `short`, and the rectangle it builds has y = -32768. -/
theorem applyOpaqueInputRegion_runs_counterexample :
    (applyOpaqueInputRegion (some (fun _ _ => 0xFFFFFF)) 3 1 2 [] = some [⟨0, 0, 3, 2⟩] ∧
      IsMaxRun (fun _ _ => 0xFFFFFF) 3 2 0 0 1 ∧
      claimedRunRect 2 0 0 1 = ⟨0, 0, 4, 2⟩ ∧
      claimedRunRect 2 0 0 1 ∉ [(⟨0, 0, 3, 2⟩ : XRectangle)]) ∧
    (applyOpaqueInputRegion (some (fun _ y => if y < 32768 then 0x00FF00 else 0xFFFFFF))
        1 32769 32768 [] = some [⟨0, -32768, 1, 32768⟩] ∧
      IsMaxRun (fun _ y => if y < 32768 then 0x00FF00 else 0xFFFFFF) 1 32768 32768 0 0 ∧
      claimedRunRect 32768 32768 0 0 = ⟨0, 32768, 32768, 32768⟩ ∧
      claimedRunRect 32768 32768 0 0 ∉ [(⟨0, -32768, 1, 32768⟩ : XRectangle)]) := by
  refine ⟨⟨by decide, ⟨by decide, by decide, ?_, by decide, ?_⟩, by decide, by decide⟩,
    ⟨by decide, ⟨by decide, by decide, ?_, by decide, ?_⟩, by decide, by decide⟩⟩
  · intro t _ _
    show pixelSolid 16777215 = true
    decide
  · intro hlt
    exact absurd hlt (by decide)
  · intro t _ ht
    have : t = 0 := by omega
    subst this
    decide
  · intro hlt
    exact absurd hlt (by decide)

/-! ## C2: the chroma thresholds -/

/-- C2.  For all channel values `r`, `g`, `b` (in particular all 8-bit ones)
`isGreenPixel r g b` is true exactly when `g ≥ 60 % of 255`, `r ≤ 35 % of 255` and
`b ≤ 35 % of 255`, compared as exact rationals; the boundary pixel `(89, 153, 89)` is
chroma; and a sample is classified solid (the local `opaque`) exactly when `isGreenPixel`
is false on its channels. -/
theorem isGreenPixel_thresholds (r g b : Nat) :
    (isGreenPixel r g b = true ↔
      ((60 : ℚ) / 100 * 255 ≤ (g : ℚ) ∧ (r : ℚ) ≤ (35 : ℚ) / 100 * 255 ∧
        (b : ℚ) ≤ (35 : ℚ) / 100 * 255)) ∧
    isGreenPixel 89 153 89 = true ∧
    (∀ px : Nat, pixelSolid px = true ↔
      isGreenPixel (chanR px) (chanG px) (chanB px) = false) := by
  refine ⟨?_, by decide, ?_⟩
  · have hg : ((60 : ℚ) / 100 * 255 ≤ (g : ℚ)) ↔ 153 ≤ g := by
      have e : (60 : ℚ) / 100 * 255 = ((153 : Nat) : ℚ) := by norm_num
      rw [e, Nat.cast_le]
    have hle : ∀ v : Nat, ((v : ℚ) ≤ (35 : ℚ) / 100 * 255) ↔ v ≤ 89 := by
      intro v
      constructor
      · intro h
        have h4 : ((v * 4 : Nat) : ℚ) ≤ ((357 : Nat) : ℚ) := by
          push_cast
          linarith
        have : v * 4 ≤ 357 := by exact_mod_cast h4
        omega
      · intro h
        have : (v : ℚ) ≤ ((89 : Nat) : ℚ) := by exact_mod_cast h
        have e : ((89 : Nat) : ℚ) ≤ (35 : ℚ) / 100 * 255 := by norm_num
        exact le_trans this e
    rw [hg, hle r, hle b]
    simp [isGreenPixel, and_assoc]
  · intro px
    simp [pixelSolid]

/-! ## C3: monotonicity in the green channel -/

/-- C3 (as amended).  With red and blue fixed and `g < g2`: if the pixel with green `g`
is chroma then so is the pixel with the larger green `g2`, and if the pixel with green
`g2` is solid then so is the pixel with the smaller green `g`.  Strictly decreasing
green never turns a solid pixel into chroma. -/
theorem isGreenPixel_mono_green (r g g2 b : Nat) (hlt : g < g2) :
    (isGreenPixel r g b = true → isGreenPixel r g2 b = true) ∧
    (isGreenPixel r g2 b = false → isGreenPixel r g b = false) := by
  have key : isGreenPixel r g b = true → isGreenPixel r g2 b = true := by
    simp only [isGreenPixel, Bool.and_eq_true, decide_eq_true_eq]
    rintro ⟨⟨h1, h2⟩, h3⟩
    exact ⟨⟨by omega, h2⟩, h3⟩
  refine ⟨key, ?_⟩
  intro h
  cases hv : isGreenPixel r g b with
  | false => rfl
  | true =>
    rw [key hv] at h
    cases h

/-- Witness for C3 (as amended): green 50 and 100 with red and blue 0. -/
theorem isGreenPixel_mono_green_witness :
    (50 < 100) ∧
    ((isGreenPixel 0 50 0 = true → isGreenPixel 0 100 0 = true) ∧
      (isGreenPixel 0 100 0 = false → isGreenPixel 0 50 0 = false)) :=
  ⟨by decide, isGreenPixel_mono_green 0 50 100 0 (by decide)⟩

/-- Counterexample to C3 as stated: the pixel `(0, 100, 0)` is solid, and raising its
green channel to 200 with red and blue fixed makes it chroma. -/
theorem isGreenPixel_mono_green_counterexample :
    (100 < 200 ∧ 200 < 256) ∧ isGreenPixel 0 100 0 = false ∧ isGreenPixel 0 200 0 = true := by
  decide

/-! ## C4: recreation of the capture in the frame loop -/

/-- C5 (as amended).  For a capture whose three handles are non-zero, `releaseCapture`
(with `glXReleaseTexImageEXT` loaded, which `main` checks before it creates a capture)
performs exactly four calls in this order: the texture is unbound from the GLX pixmap,
the GLX pixmap is destroyed, the X pixmap is freed, and the texture is deleted last.
Afterwards the three handle fields are 0 and a second `releaseCapture` performs no call.
`makeCapture` acquires the X pixmap, then the GLX pixmap, then the texture. -/
theorem releaseCapture_order (cap : Capture) (hx : cap.xpixmap ≠ 0)
    (hg : cap.glxpixmap ≠ 0) (ht : cap.texture ≠ 0) :
    (releaseCapture true cap).1 =
      [.glXReleaseTexImageEXT cap.glxpixmap, .glXDestroyPixmap cap.glxpixmap,
        .XFreePixmap cap.xpixmap, .glDeleteTextures cap.texture] ∧
    (releaseCapture true cap).2 = ⟨0, 0, 0, cap.w, cap.h⟩ ∧
    (releaseCapture true (releaseCapture true cap).2).1 = [] ∧
    (∀ env : CaptureEnv, (makeCapture env).2 = some cap →
      (makeCapture env).1.filter GfxCall.isAcquire =
        [.XCompositeNameWindowPixmap cap.xpixmap,
          .glXCreatePixmap cap.xpixmap cap.glxpixmap, .glGenTextures cap.texture]) := by
  refine ⟨?_, ?_, ?_, ?_⟩
  · simp [releaseCapture, hx, hg, ht]
  · simp [releaseCapture, hx, hg, ht]
  · simp [releaseCapture, hx, hg, ht]
  · intro env hmk
    unfold makeCapture at hmk ⊢
    by_cases h1 : env.xpixmap = 0
    · simp [h1] at hmk
    · by_cases h2 : env.glxpixmap = 0
      · simp [h1, h2] at hmk
      · by_cases h3 : env.glError ≠ 0
        · simp [h1, h2, h3] at hmk
        · simp only [h1, h2, h3, if_false] at hmk ⊢
          have hc : cap = ⟨env.xpixmap, env.glxpixmap, env.texture, env.width, env.height⟩ := by
            simpa using hmk.symm
          subst hc
          simp [GfxCall.isAcquire]

/-- Witness for C5 (as amended): the capture with the handles 1, 2 and 3. -/
theorem releaseCapture_order_witness :
    ((1 : Nat) ≠ 0 ∧ (2 : Nat) ≠ 0 ∧ (3 : Nat) ≠ 0) ∧
    (releaseCapture true ⟨1, 2, 3, 800, 600⟩).1 =
      [.glXReleaseTexImageEXT 2, .glXDestroyPixmap 2, .XFreePixmap 1, .glDeleteTextures 3] :=
  ⟨by decide,
    (releaseCapture_order ⟨1, 2, 3, 800, 600⟩ (by decide) (by decide) (by decide)).1⟩

/-- Counterexample to C5 as stated: for the capture with the handles 1, 2 and 3 the
texture is deleted after the GLX pixmap is destroyed and after the X pixmap is freed,
so the calls are not in the claimed reverse-acquisition order. -/
theorem releaseCapture_order_counterexample :
    (releaseCapture true ⟨1, 2, 3, 800, 600⟩).1 =
      [.glXReleaseTexImageEXT 2, .glXDestroyPixmap 2, .XFreePixmap 1, .glDeleteTextures 3] ∧
    claimedReleaseOrder ⟨1, 2, 3, 800, 600⟩ =
      [.glXReleaseTexImageEXT 2, .glDeleteTextures 3, .glXDestroyPixmap 2, .XFreePixmap 1] ∧
    (releaseCapture true ⟨1, 2, 3, 800, 600⟩).1 ≠ claimedReleaseOrder ⟨1, 2, 3, 800, 600⟩ := by
  decide

/-! ## C6: the mask-refresh timer -/

theorem list_eq_singleton {α : Type} (R : α → α → Prop) (l : List α) (a : α)
    (hirr : ¬ R a a) (hp : l.Pairwise R) (hmem : ∀ x, x ∈ l ↔ x = a) : l = [a] := by
  cases l with
  | nil =>
    have := (hmem a).2 rfl
    simp at this
  | cons x t =>
    have hx : x = a := (hmem x).1 (List.mem_cons_self x t)
    subst hx
    cases t with
    | nil => rfl
    | cons z t2 =>
      have hz : z = x := (hmem z).1 (by simp)
      subst hz
      rw [List.pairwise_cons] at hp
      exact absurd (hp.1 z (by simp)) hirr

theorem rowOut_split (img : XImage) (w step y c : Int) (hstep : 1 ≤ step)
    (hstep2 : step ≤ 65535) (hy0 : 0 ≤ y) (hy : y < 32768) (hc0 : 0 < c) (hcw : c < w)
    (hc2 : c ≤ 65535) (hdvd : step ∣ c)
    (himg : ∀ x : Int, 0 ≤ x → x < w → (pixelSolid (img x y) = true ↔ x < c)) :
    rowOut img w step y = [⟨0, y, c, step⟩] := by
  obtain ⟨q0, hq0⟩ := hdvd
  have hq0pos : 0 < q0 := by
    by_contra hneg
    have : q0 ≤ 0 := by omega
    have : step * q0 ≤ 0 := by nlinarith
    omega
  obtain ⟨q, rfl⟩ : ∃ q : Nat, q0 = (q : Int) := ⟨q0.toNat, by omega⟩
  have hqc : (q : Int) * step = c := by rw [hq0]; ring
  have hqpos : 0 < q := by exact_mod_cast hq0pos
  have hqn : q < numSamples w step := (numSamples_spec w step hstep q).1 (by omega)
  have hop : ∀ t : Nat, t < numSamples w step →
      (sampleSolid img step y t = true ↔ t < q) := by
    intro t ht
    have h1 := (numSamples_spec w step hstep t).2 ht
    have h2 : 0 ≤ (t : Int) * step := by positivity
    unfold sampleSolid
    rw [himg _ h2 h1, ← hqc]
    constructor
    · intro hlt
      by_contra hge
      have := sample_col_mono step hstep q t (by omega)
      omega
    · intro hlt
      exact sample_col_strict step hstep t q hlt
  have hopF : ∀ t : Nat, t < numSamples w step → q ≤ t →
      sampleSolid img step y t = false := by
    intro t ht hqt
    cases hv : sampleSolid img step y t with
    | false => rfl
    | true =>
      have := (hop t ht).1 hv
      omega
  obtain ⟨h1, h2, h3⟩ := absScan_spec (sampleSolid img step y) (numSamples w step) 0 none
    (Or.inl rfl)
  rw [Nat.zero_add] at h1
  have hclosed : (absScan (sampleSolid img step y) (numSamples w step) 0 none).2 = [(0, q)] := by
    refine list_eq_singleton (fun a b => a.1 < b.1) _ (0, q) (by simp) h3 ?_
    rintro ⟨i, e⟩
    rw [h2]
    constructor
    · rintro ⟨⟨c1, c2, c3, c4⟩, -, hlt⟩
      rw [Nat.zero_add] at hlt
      have he1 : q ≤ e := by
        by_contra hc
        have := (hop e hlt).2 (by omega)
        rw [this] at c4; cases c4
      have hi1 : i < q := (hop i (by omega)).1 (c2 i (le_refl _) c1)
      have he2 : e = q := by
        by_contra hne
        have := c2 q (by omega) (by omega)
        have := (hop q hqn).1 this
        omega
      have hi2 : i = 0 := by
        rcases c3 with h0 | h0
        · exact h0
        · by_contra hne
          have := (hop (i - 1) (by omega)).2 (by omega)
          rw [this] at h0; cases h0
      rw [he2, hi2]
    · intro heq
      have hi : i = 0 := congrArg Prod.fst heq
      have he : e = q := congrArg Prod.snd heq
      subst hi; subst he
      refine ⟨⟨hqpos, ?_, Or.inl rfl, hopF e hqn (le_refl _)⟩, Nat.zero_le _, by omega⟩
      intro t _ ht
      exact (hop t (by omega)).2 ht
  have hstate : (absScan (sampleSolid img step y) (numSamples w step) 0 none).1 = none := by
    cases hst : (absScan (sampleSolid img step y) (numSamples w step) 0 none).1 with
    | none => rfl
    | some s =>
      rw [hst] at h1
      obtain ⟨s1, s2, -⟩ := h1
      have := s2 (numSamples w step - 1) (by omega) (by omega)
      have := (hop (numSamples w step - 1) (by omega)).1 this
      omega
  unfold rowOut
  rw [hclosed, hstate]
  simp only [List.map_cons, List.map_nil, flushRects, List.append_nil, closedRect]
  have e0 : ((0 : Nat) : Int) * step = 0 := by simp
  rw [e0, hqc, toShort_id 0 (by omega) (by omega), toShort_id y (by omega) (by omega),
    toUShort_id (c - 0) (by omega) (by omega), toUShort_id step (by omega) (by omega)]
  simp

theorem flatMap_singleton_eq_map {α β : Type} (f : α → β) (g : α → List β) (l : List α)
    (h : ∀ a, a ∈ l → g a = [f a]) : l.flatMap g = l.map f := by
  induction l with
  | nil => rfl
  | cons a t ih =>
    rw [List.flatMap_cons, List.map_cons, h a (List.mem_cons_self a t),
      ih (fun b hb => h b (List.mem_cons_of_mem a hb))]
    rfl

/-- C7 (as amended).  For `1 ≤ step ≤ 65535`, `0 ≤ h ≤ 32768`, a width with
`w + step ≤ 2 ^ 31` (so that the column counter does not overflow) and a boundary column
`c ≤ 65535` that is a multiple of `step` with `0 < c < w`: if every pixel of the capture is
solid exactly when its column is below `c`, then `applyOpaqueInputRegion` builds exactly
one rectangle per sampled row `y = k * step < h`, in the order of the rows, and that
rectangle is `(x = 0, y, width = c, height = step)`. -/
theorem applyOpaqueInputRegion_split (img : XImage) (w h step c : Int)
    (shape : List XRectangle) (hstep : 1 ≤ step) (hstep2 : step ≤ 65535) (hh0 : 0 ≤ h)
    (hh : h ≤ 32768) (hc0 : 0 < c) (hcw : c < w) (hc2 : c ≤ 65535) (hdvd : step ∣ c)
    (hovw : w + step ≤ 2147483648)
    (himg : ∀ x y : Int, 0 ≤ x → x < w → 0 ≤ y → y < h →
      (pixelSolid (img x y) = true ↔ x < c)) :
    applyOpaqueInputRegion (some img) w h step shape =
        some ((List.range (numSamples h step)).map
          (fun k : Nat => (⟨0, (k : Int) * step, c, step⟩ : XRectangle))) ∧
      ∀ k : Nat, k < numSamples h step ↔ (k : Int) * step < h := by
  refine ⟨?_, fun k => (numSamples_spec h step hstep k).symm⟩
  show maskRects img w h step = _
  rw [maskRects_eq img w h step hstep hh0 hovw (by omega)
    (reserve_size_small h step hstep hh0 hh)]
  congr 1
  apply flatMap_singleton_eq_map
  intro k hk
  have h1 := (numSamples_spec h step hstep k).2 (List.mem_range.1 hk)
  have h2 : 0 ≤ (k : Int) * step := by positivity
  exact rowOut_split img w step _ c hstep hstep2 h2 (by omega) hc0 hcw hc2 hdvd
    (fun x hx0 hxw => himg x _ hx0 hxw h2 h1)

theorem split_image_solid (c : Int) (x y : Int) :
    pixelSolid ((fun (x _ : Int) => if x < c then 0xFFFFFF else 0x00FF00) x y) = true ↔
      x < c := by
  by_cases hx : x < c
  · simp only [hx, if_true, iff_true]
    decide
  · simp only [hx, if_false, iff_false]
    decide

/-- Witness for C7 (as amended), on the two examples of the specification: a 100 wide,
20 row capture split at column 50 and sampled with stride 10 gives the two rectangles
that span the columns `[0, 50)` of the rows 0 and 10; solid samples at the columns
0, 2, 4 and chroma from column 6 on, with stride 2, give one rectangle that spans
`[0, 6)`. -/
theorem applyOpaqueInputRegion_split_witness :
    (((1 : Int) ≤ 10 ∧ (10 : Int) ≤ 65535 ∧ (0 : Int) ≤ 20 ∧ (20 : Int) ≤ 32768 ∧
        (0 : Int) < 50 ∧ (50 : Int) < 100 ∧ (50 : Int) ≤ 65535 ∧ (10 : Int) ∣ 50 ∧
        (100 : Int) + 10 ≤ 2147483648) ∧
      applyOpaqueInputRegion (some (fun x _ => if x < 50 then 0xFFFFFF else 0x00FF00))
        100 20 10 [] = some [⟨0, 0, 50, 10⟩, ⟨0, 10, 50, 10⟩]) ∧
    applyOpaqueInputRegion (some (fun x _ => if x < 6 then 0xFFFFFF else 0x00FF00))
        8 2 2 [] = some [⟨0, 0, 6, 2⟩] :=
  ⟨⟨by decide,
    (applyOpaqueInputRegion_split (fun x _ => if x < 50 then 0xFFFFFF else 0x00FF00)
      100 20 10 50 [] (by decide) (by decide) (by decide) (by decide) (by decide) (by decide)
      (by decide) (by decide) (by decide)
      (fun x y _ _ _ _ => split_image_solid 50 x y)).1.trans
      (by decide)⟩,
    (applyOpaqueInputRegion_split (fun x _ => if x < 6 then 0xFFFFFF else 0x00FF00)
      8 2 2 6 [] (by decide) (by decide) (by decide) (by decide) (by decide) (by decide)
      (by decide) (by decide) (by decide)
      (fun x y _ _ _ _ => split_image_solid 6 x y)).1.trans
      (by decide)⟩

/-- Counterexample to C7 as stated: a 32769 by 32769 capture, solid left of the boundary
column 32768, sampled with stride 32768.  Row 32768 is sampled, and the rectangle built
for it has y = -32768 (the row is stored in a `short`), not y = 32768.  A second capture
shows that the width needs a bound too: with width 2147483647 (`INT_MAX`), height 1 and
stride and boundary column 1073741824, the column counter overflows after the column
1073741824, which is undefined behaviour, and no mask is built. -/
theorem applyOpaqueInputRegion_split_counterexample :
    ((1 : Int) ≤ 32768 ∧ (32768 : Int) ∣ 32768 ∧ (0 : Int) < 32768 ∧ (32768 : Int) < 32769 ∧
      ((1 : Nat) : Int) * 32768 < 32769) ∧
    (∀ x y : Int, pixelSolid ((fun (x _ : Int) => if x < 32768 then 0xFFFFFF else 0x00FF00) x y)
      = true ↔ x < 32768) ∧
    applyOpaqueInputRegion (some (fun x _ => if x < 32768 then 0xFFFFFF else 0x00FF00))
      32769 32769 32768 [] = some [⟨0, 0, 32768, 32768⟩, ⟨0, -32768, 32768, 32768⟩] ∧
    (⟨0, ((1 : Nat) : Int) * 32768, 32768, 32768⟩ : XRectangle) ∉
      [(⟨0, 0, 32768, 32768⟩ : XRectangle), ⟨0, -32768, 32768, 32768⟩] ∧
    ((1 : Int) ≤ 1073741824 ∧ (1073741824 : Int) ∣ 1073741824 ∧ (0 : Int) < 1073741824 ∧
      (1073741824 : Int) < 2147483647) ∧
    (∀ x y : Int,
      pixelSolid ((fun (x _ : Int) => if x < 1073741824 then 0xFFFFFF else 0x00FF00) x y)
      = true ↔ x < 1073741824) ∧
    applyOpaqueInputRegion (some (fun x _ => if x < 1073741824 then 0xFFFFFF else 0x00FF00))
      2147483647 1 1073741824 [] = none :=
  ⟨by decide, fun x y => split_image_solid 32768 x y, by decide, by decide, by decide,
    fun x y => split_image_solid 1073741824 x y, by decide⟩

/-! ## C8: rows without a solid sample -/

theorem absScan_all_false (op : Nat → Bool) :
    ∀ (m k : Nat), (∀ i, k ≤ i → i < k + m → op i = false) →
      absScan op m k none = (none, []) := by
  intro m
  induction m with
  | zero => intro k _; rfl
  | succ m ih =>
    intro k h
    have hk : op k = false := h k (le_refl _) (by omega)
    have := ih (k + 1) (fun i h1 h2 => h i (by omega) (by omega))
    simp [absScan, hk, this]

theorem rowOut_chroma (img : XImage) (w step y : Int) (hstep : 1 ≤ step)
    (hrow : ∀ i : Nat, (i : Int) * step < w → sampleSolid img step y i = false) :
    rowOut img w step y = [] := by
  have := absScan_all_false (sampleSolid img step y) (numSamples w step) 0
    (fun i _ hi => hrow i ((numSamples_spec w step hstep i).2 (by omega)))
  unfold rowOut
  rw [this]
  rfl

theorem maskRects_chroma (img : XImage) (w h step : Int) (hstep : 1 ≤ step) (hh0 : 0 ≤ h)
    (hovw : w + step ≤ 2147483648) (hovh : h + step ≤ 2147483648)
    (hcap : (h / step + 1) * 16 ≤ 2147483647)
    (hall : ∀ k i : Nat, (k : Int) * step < h → (i : Int) * step < w →
      sampleSolid img step ((k : Int) * step) i = false) :
    maskRects img w h step = some [] := by
  rw [maskRects_eq img w h step hstep hh0 hovw hovh (reserve_size_le h step hstep hh0 hcap)]
  congr 1
  rw [List.flatMap_eq_nil_iff]
  intro k hk
  have h1 := (numSamples_spec h step hstep k).2 (List.mem_range.1 hk)
  exact rowOut_chroma img w step _ hstep (fun i hi => hall k i h1 hi)

/-- C8 (as amended).  For every image and all `int`s `w`, `h ≥ 0` and `1 ≤ step` for which
the loop counters and the reserve size stay inside `int` (`w + step ≤ 2 ^ 31`,
`h + step ≤ 2 ^ 31`, `(h / step + 1) * 16 ≤ INT_MAX`):
(1) the loop body of `applyOpaqueInputRegion` adds no rectangle for a row in which no
sampled pixel is solid; (2) when every sampled pixel of the capture is chroma the mask is
the empty list of rectangles; (3) a capture that is chroma everywhere, of size 100 by 100
and sampled with stride 10, gives the empty mask. -/
theorem applyOpaqueInputRegion_chroma (img : XImage) (w h step : Int)
    (shape : List XRectangle) (hstep : 1 ≤ step) (hstep2 : step ≤ 2147483647)
    (hw0 : -2147483648 ≤ w) (hh0 : 0 ≤ h)
    (hovw : w + step ≤ 2147483648) (hovh : h + step ≤ 2147483648)
    (hcap : (h / step + 1) * 16 ≤ 2147483647) :
    (∀ (y : Int) (rects : List XRectangle),
      (∀ i : Nat, (i : Int) * step < w → sampleSolid img step y i = false) →
      rowBody img w step y rects = some rects) ∧
    ((∀ k i : Nat, (k : Int) * step < h → (i : Int) * step < w →
        sampleSolid img step ((k : Int) * step) i = false) →
      applyOpaqueInputRegion (some img) w h step shape = some []) ∧
    ((∀ x y : Int, pixelSolid (img x y) = false) →
      applyOpaqueInputRegion (some img) 100 100 10 shape = some []) := by
  refine ⟨?_, ?_, ?_⟩
  · intro y rects hrow
    rw [rowBody_eq img w step y hstep hovw, rowOut_chroma img w step y hstep hrow]
    simp
  · intro hall
    exact maskRects_chroma img w h step hstep hh0 hovw hovh hcap hall
  · intro hall
    exact maskRects_chroma img 100 100 10 (by decide) (by decide) (by decide) (by decide)
      (by decide) (fun k i _ _ => hall _ _)

/-- Witness for C8 (as amended): a 100 by 100 capture filled with the chroma colour,
stride 10. -/
theorem applyOpaqueInputRegion_chroma_witness :
    ((1 : Int) ≤ 10 ∧ (10 : Int) ≤ 2147483647 ∧ (-2147483648 : Int) ≤ 100 ∧
      (0 : Int) ≤ 100 ∧ (100 : Int) + 10 ≤ 2147483648 ∧
      ((100 : Int) / 10 + 1) * 16 ≤ 2147483647) ∧
    applyOpaqueInputRegion (some (fun _ _ => 0x00FF00)) 100 100 10 [] = some [] :=
  ⟨by decide,
    (applyOpaqueInputRegion_chroma (fun _ _ => 0x00FF00) 100 100 10 [] (by decide)
      (by decide) (by decide) (by decide) (by decide) (by decide) (by decide)).2.2
      (fun _ _ => by decide)⟩

/-- Counterexample to C8 as stated: a capture of width 2147483647 (`INT_MAX`) and height 1
that is chroma everywhere, sampled with stride 1073741824.  The columns 0 and 1073741824
are sampled and chroma, then `x += step` exceeds `INT_MAX`: the behaviour is undefined and
neither the row nor the mask is completed, so no empty mask is produced. -/
theorem applyOpaqueInputRegion_chroma_counterexample :
    ((1 : Int) ≤ 1073741824 ∧ (1073741824 : Int) ≤ 2147483647 ∧ (0 : Int) ≤ 1) ∧
    (∀ x y : Int, pixelSolid ((fun (_ _ : Int) => 0x00FF00) x y) = false) ∧
    intAdd 1073741824 1073741824 = none ∧
    rowBody (fun _ _ => 0x00FF00) 2147483647 1073741824 0 [] = none ∧
    applyOpaqueInputRegion (some (fun _ _ => 0x00FF00)) 2147483647 1 1073741824 [] = none ∧
    applyOpaqueInputRegion (some (fun _ _ => 0x00FF00)) 2147483647 1 1073741824 [] ≠
      some [] :=
  ⟨by decide, (fun _ _ => (by decide : pixelSolid 0x00FF00 = false)), by decide, by decide, by decide, by decide⟩

/-! ## Binary32 arithmetic: exact cases of the rounding -/

theorem log2Aux_spec : ∀ (fuel n : Nat), n ≤ fuel → n ≠ 0 →
    2 ^ log2Aux fuel n ≤ n ∧ n < 2 ^ (log2Aux fuel n + 1) := by
  intro fuel
  induction fuel with
  | zero => intro n h1 h2; omega
  | succ f ih =>
    intro n h1 h2
    by_cases hn : n < 2
    · have : n = 1 := by omega
      subst this
      simp [log2Aux]
    · have hdef : log2Aux (f + 1) n = log2Aux f (n / 2) + 1 := by
        simp [log2Aux, hn]
      obtain ⟨i1, i2⟩ := ih (n / 2) (by omega) (by omega)
      rw [hdef]
      constructor
      · rw [pow_succ]; omega
      · rw [pow_succ]; omega

theorem log2Nat_spec (n : Nat) (hn : n ≠ 0) :
    2 ^ log2Nat n ≤ n ∧ n < 2 ^ (log2Nat n + 1) :=
  log2Aux_spec n n (le_refl _) hn

namespace F32

theorem two_zpow_pos (e : ℤ) : (0 : ℚ) < (2 : ℚ) ^ e := zpow_pos (by norm_num) e

theorem ilog2_spec (q : ℚ) (hq : q ≠ 0) :
    (2 : ℚ) ^ ilog2 q ≤ |q| ∧ |q| < (2 : ℚ) ^ (ilog2 q + 1) := by
  have hnum : q.num.natAbs ≠ 0 := by
    simpa using Rat.num_ne_zero.2 hq
  obtain ⟨a1, a2⟩ := log2Nat_spec q.num.natAbs hnum
  obtain ⟨b1, b2⟩ := log2Nat_spec q.den q.den_nz
  have hden : (0 : ℚ) < (q.den : ℚ) := by exact_mod_cast q.den_pos
  have habs : |q| = (q.num.natAbs : ℚ) / (q.den : ℚ) := by
    have e1 : |q| = |(q.num : ℚ)| / (q.den : ℚ) := by
      conv_lhs => rw [← Rat.num_div_den q]
      rw [abs_div, abs_of_pos hden]
    rw [e1, Nat.cast_natAbs, Int.cast_abs]
  have a1q : (2 : ℚ) ^ (log2Nat q.num.natAbs : ℤ) ≤ (q.num.natAbs : ℚ) := by
    rw [zpow_natCast]; exact_mod_cast a1
  have a2q : (q.num.natAbs : ℚ) < (2 : ℚ) ^ ((log2Nat q.num.natAbs : ℤ) + 1) := by
    have : ((log2Nat q.num.natAbs : ℤ) + 1) = ((log2Nat q.num.natAbs + 1 : ℕ) : ℤ) := by
      push_cast; ring
    rw [this, zpow_natCast]; exact_mod_cast a2
  have b1q : (2 : ℚ) ^ (log2Nat q.den : ℤ) ≤ (q.den : ℚ) := by
    rw [zpow_natCast]; exact_mod_cast b1
  have b2q : (q.den : ℚ) < (2 : ℚ) ^ ((log2Nat q.den : ℤ) + 1) := by
    have : ((log2Nat q.den : ℤ) + 1) = ((log2Nat q.den + 1 : ℕ) : ℤ) := by
      push_cast; ring
    rw [this, zpow_natCast]; exact_mod_cast b2
  have h2 : (2 : ℚ) ≠ 0 := by norm_num
  -- upper bound: |q| < 2 ^ (c + 1)
  have hup : |q| < (2 : ℚ) ^ ((log2Nat q.num.natAbs : ℤ) - (log2Nat q.den : ℤ) + 1) := by
    rw [habs, div_lt_iff₀ hden]
    have e : ((log2Nat q.num.natAbs : ℤ) - (log2Nat q.den : ℤ) + 1) =
        ((log2Nat q.num.natAbs : ℤ) + 1) - (log2Nat q.den : ℤ) := by ring
    rw [e, zpow_sub₀ h2]
    have hp := two_zpow_pos (log2Nat q.den : ℤ)
    calc (q.num.natAbs : ℚ) < (2 : ℚ) ^ ((log2Nat q.num.natAbs : ℤ) + 1) := a2q
      _ = (2 : ℚ) ^ ((log2Nat q.num.natAbs : ℤ) + 1) / (2 : ℚ) ^ (log2Nat q.den : ℤ) *
            (2 : ℚ) ^ (log2Nat q.den : ℤ) := by field_simp
      _ ≤ (2 : ℚ) ^ ((log2Nat q.num.natAbs : ℤ) + 1) / (2 : ℚ) ^ (log2Nat q.den : ℤ) *
            (q.den : ℚ) := by
          apply mul_le_mul_of_nonneg_left b1q
          exact le_of_lt (div_pos (two_zpow_pos _) hp)
  -- lower bound: 2 ^ (c - 1) ≤ |q|
  have hlow : (2 : ℚ) ^ ((log2Nat q.num.natAbs : ℤ) - (log2Nat q.den : ℤ) - 1) ≤ |q| := by
    rw [habs, le_div_iff₀ hden]
    have e : ((log2Nat q.num.natAbs : ℤ) - (log2Nat q.den : ℤ) - 1) =
        (log2Nat q.num.natAbs : ℤ) - ((log2Nat q.den : ℤ) + 1) := by ring
    rw [e, zpow_sub₀ h2]
    have hp := two_zpow_pos ((log2Nat q.den : ℤ) + 1)
    calc (2 : ℚ) ^ (log2Nat q.num.natAbs : ℤ) / (2 : ℚ) ^ ((log2Nat q.den : ℤ) + 1) * (q.den : ℚ)
        ≤ (2 : ℚ) ^ (log2Nat q.num.natAbs : ℤ) / (2 : ℚ) ^ ((log2Nat q.den : ℤ) + 1) *
            (2 : ℚ) ^ ((log2Nat q.den : ℤ) + 1) := by
          apply mul_le_mul_of_nonneg_left (le_of_lt b2q)
          exact le_of_lt (div_pos (two_zpow_pos _) hp)
      _ = (2 : ℚ) ^ (log2Nat q.num.natAbs : ℤ) := by field_simp
      _ ≤ (q.num.natAbs : ℚ) := a1q
  unfold ilog2
  simp only
  by_cases hc : (2 : ℚ) ^ ((log2Nat q.num.natAbs : ℤ) - (log2Nat q.den : ℤ)) ≤ |q|
  · rw [if_pos hc]
    exact ⟨hc, hup⟩
  · rw [if_neg hc]
    refine ⟨hlow, ?_⟩
    have e : ((log2Nat q.num.natAbs : ℤ) - (log2Nat q.den : ℤ) - 1 + 1) =
        (log2Nat q.num.natAbs : ℤ) - (log2Nat q.den : ℤ) := by ring
    rw [e]
    exact lt_of_not_le hc

theorem ilog2_lt (q : ℚ) (hq : q ≠ 0) (a : ℤ) (h : |q| < (2 : ℚ) ^ a) : ilog2 q < a := by
  have h1 := (ilog2_spec q hq).1
  have : (2 : ℚ) ^ ilog2 q < (2 : ℚ) ^ a := lt_of_le_of_lt h1 h
  exact (zpow_lt_zpow_iff_right₀ (by norm_num : (1 : ℚ) < 2)).1 this

theorem le_ilog2 (q : ℚ) (hq : q ≠ 0) (a : ℤ) (h : (2 : ℚ) ^ a ≤ |q|) : a ≤ ilog2 q := by
  have h1 := (ilog2_spec q hq).2
  have : (2 : ℚ) ^ a < (2 : ℚ) ^ (ilog2 q + 1) := lt_of_le_of_lt h h1
  have := (zpow_lt_zpow_iff_right₀ (by norm_num : (1 : ℚ) < 2)).1 this
  omega

theorem roundEven_intCast (k : ℤ) : roundEven (k : ℚ) = k := by
  unfold roundEven
  simp


theorem roundFinite_exact (m e : ℤ) (hm : |m| < 2 ^ 24) (he : -149 ≤ e) :
    roundFinite ((m : ℚ) * (2 : ℚ) ^ e) = (m : ℚ) * (2 : ℚ) ^ e := by
  by_cases hm0 : m = 0
  · subst hm0
    simp [roundFinite]
  have h2 : (2 : ℚ) ≠ 0 := by norm_num
  have hpe := two_zpow_pos e
  have hq : (m : ℚ) * (2 : ℚ) ^ e ≠ 0 := by
    apply mul_ne_zero
    · exact_mod_cast hm0
    · exact ne_of_gt hpe
  have habs : |(m : ℚ) * (2 : ℚ) ^ e| = ((|m| : ℤ) : ℚ) * (2 : ℚ) ^ e := by
    rw [abs_mul, abs_of_pos hpe, Int.cast_abs]
  have hlt : |(m : ℚ) * (2 : ℚ) ^ e| < (2 : ℚ) ^ (24 + e) := by
    rw [habs, zpow_add₀ h2]
    apply mul_lt_mul_of_pos_right _ hpe
    have : ((|m| : ℤ) : ℚ) < ((2 ^ 24 : ℤ) : ℚ) := by exact_mod_cast hm
    norm_num at this ⊢
    exact this
  have hil := ilog2_lt _ hq _ hlt
  have hE : ulpExp ((m : ℚ) * (2 : ℚ) ^ e) ≤ e := by
    unfold ulpExp
    apply max_le <;> omega
  obtain ⟨K, hK⟩ : ∃ K : ℕ, e - ulpExp ((m : ℚ) * (2 : ℚ) ^ e) = (K : ℤ) :=
    ⟨(e - ulpExp ((m : ℚ) * (2 : ℚ) ^ e)).toNat, by omega⟩
  have hsplit : (2 : ℚ) ^ e = (2 : ℚ) ^ K * (2 : ℚ) ^ ulpExp ((m : ℚ) * (2 : ℚ) ^ e) := by
    rw [← zpow_natCast, ← hK, ← zpow_add₀ h2]
    congr 1
    ring
  have hpE := two_zpow_pos (ulpExp ((m : ℚ) * (2 : ℚ) ^ e))
  have hdiv : |(m : ℚ) * (2 : ℚ) ^ e| / (2 : ℚ) ^ ulpExp ((m : ℚ) * (2 : ℚ) ^ e) =
      ((|m| * 2 ^ K : ℤ) : ℚ) := by
    rw [habs, div_eq_iff (ne_of_gt hpE)]
    push_cast
    rw [mul_assoc, ← hsplit]
  have hre : roundEven (|(m : ℚ) * (2 : ℚ) ^ e| / (2 : ℚ) ^ ulpExp ((m : ℚ) * (2 : ℚ) ^ e)) =
      |m| * 2 ^ K := by
    rw [hdiv, roundEven_intCast]
  unfold roundFinite
  rw [if_neg hq, hre]
  push_cast
  by_cases hneg : (m : ℚ) * (2 : ℚ) ^ e < 0
  · rw [if_pos hneg]
    have hmneg : m < 0 := by
      by_contra hc
      have : (0 : ℚ) ≤ (m : ℚ) := by exact_mod_cast (not_lt.1 hc)
      have := mul_nonneg this (le_of_lt hpe)
      linarith
    rw [abs_of_neg (by exact_mod_cast hmneg : (m : ℚ) < 0)]
    conv_rhs => rw [hsplit]
    ring
  · rw [if_neg hneg]
    have hmpos : 0 ≤ m := by
      by_contra hc
      have h1 : (m : ℚ) < 0 := by exact_mod_cast (not_le.1 hc)
      exact hneg (mul_neg_of_neg_of_pos h1 hpe)
    rw [abs_of_nonneg (by exact_mod_cast hmpos : (0 : ℚ) ≤ (m : ℚ))]
    conv_rhs => rw [hsplit]
    ring

theorem roundFinite_exact_le (m e : ℤ) (hm : |m| ≤ 2 ^ 24) (he : -149 ≤ e) :
    roundFinite ((m : ℚ) * (2 : ℚ) ^ e) = (m : ℚ) * (2 : ℚ) ^ e := by
  by_cases hlt : |m| < 2 ^ 24
  · exact roundFinite_exact m e hlt he
  · have heq : |m| = 2 ^ 24 := by omega
    have h2 : (2 : ℚ) ≠ 0 := by norm_num
    have hm2 : m = (m / 2) * 2 := by
      rcases abs_eq (by norm_num : (0 : ℤ) ≤ 2 ^ 24) |>.1 heq with h | h <;> rw [h] <;> norm_num
    have hhalf : |m / 2| < 2 ^ 24 := by
      rcases abs_eq (by norm_num : (0 : ℤ) ≤ 2 ^ 24) |>.1 heq with h | h <;> rw [h] <;> norm_num
    have e1 : (m : ℚ) * (2 : ℚ) ^ e = ((m / 2 : ℤ) : ℚ) * (2 : ℚ) ^ (e + 1) := by
      rw [zpow_add₀ h2]
      conv_lhs => rw [hm2]
      push_cast
      ring
    rw [e1]
    exact roundFinite_exact (m / 2) (e + 1) hhalf (by omega)

theorem roundFinite_int (n : ℤ) (hn : |n| ≤ 2 ^ 24) : roundFinite (n : ℚ) = (n : ℚ) := by
  have := roundFinite_exact_le n 0 hn (by norm_num)
  simpa using this

theorem ofInt_exact (n : ℤ) (hn : |n| ≤ 2 ^ 24) : ofInt n = (n : ℚ) :=
  roundFinite_int n hn


theorem trunc_intCast (n : ℤ) : trunc (n : ℚ) = n := by
  unfold trunc
  by_cases h : (0 : ℚ) ≤ (n : ℚ)
  · rw [if_pos h, Int.floor_intCast]
  · rw [if_neg h, Int.ceil_intCast]

theorem trunc_range (a : ℚ) (h : |a| < 2 ^ 31) :
    -2147483648 ≤ trunc a ∧ trunc a ≤ 2147483647 := by
  obtain ⟨h1, h2⟩ := abs_lt.1 h
  unfold trunc
  by_cases h0 : 0 ≤ a
  · rw [if_pos h0]
    have hf0 : 0 ≤ ⌊a⌋ := Int.floor_nonneg.2 h0
    have hf1 : ⌊a⌋ < 2147483648 := by
      rw [Int.floor_lt]
      norm_num at h2 ⊢
      exact h2
    omega
  · rw [if_neg h0]
    have hc0 : ⌈a⌉ ≤ 0 := by
      rw [Int.ceil_le]
      push_cast
      linarith
    have hc1 : -2147483648 < ⌈a⌉ := by
      rw [Int.lt_ceil]
      norm_num at h1 ⊢
      exact h1
    omega

theorem toInt_of_lt (a : ℚ) (h : |a| < 2 ^ 31) : toInt a = some (trunc a) := by
  unfold toInt
  rw [if_pos (trunc_range a h)]

theorem round_of_lt (q : ℚ) (h : |roundFinite q| < 2 ^ 128) :
    round q = some (roundFinite q) := by
  unfold round
  rw [if_pos h]

end F32

theorem scaleField_eq (v : Int) (s : ℚ) (hv : |v| ≤ 2 ^ 24)
    (hb : |F32.roundFinite ((v : ℚ) * s)| < 2 ^ 31) :
    scaleField v s = some (F32.trunc (F32.roundFinite ((v : ℚ) * s))) := by
  unfold scaleField F32.mul
  rw [F32.ofInt_exact v hv, F32.round_of_lt _ (lt_trans hb (by norm_num))]
  exact F32.toInt_of_lt _ hb

theorem scaleField_int (v k : Int) (hv : |v| ≤ 2 ^ 24) (hkv : |k * v| ≤ 2 ^ 24) :
    scaleField v (k : ℚ) = some (k * v) := by
  have e1 : (v : ℚ) * (k : ℚ) = ((k * v : ℤ) : ℚ) := by push_cast; ring
  have e2 : F32.roundFinite ((v : ℚ) * (k : ℚ)) = ((k * v : ℤ) : ℚ) := by
    rw [e1]; exact F32.roundFinite_int _ hkv
  have hb : |F32.roundFinite ((v : ℚ) * (k : ℚ))| < 2 ^ 31 := by
    rw [e2]
    have : ((|k * v| : ℤ) : ℚ) ≤ ((2 ^ 24 : ℤ) : ℚ) := by exact_mod_cast hkv
    rw [Int.cast_abs] at this
    refine lt_of_le_of_lt this ?_
    norm_num
  rw [scaleField_eq v k hv hb, e2, F32.trunc_intCast]


/-! ## C9: scaling a rectangle into framebuffer coordinates -/

/-- C9 (as amended).  For every rectangle whose four fields have a magnitude of at most
`2 ^ 24` (so that their conversion to `float` is exact):
(1) for all scale factors `sx`, `sy` such that the binary32 products stay below `2 ^ 31`
in magnitude, `scaleToFB` returns the rectangle of the values
`trunc (fl (field * factor))`, where `fl` rounds the exact product to binary32 and `trunc`
truncates toward zero, the same way for each field, x and w with `sx`, y and h with `sy`;
(2) `scaleToFB r 1 1 = r`;
(3) for integer factors whose products with the fields have a magnitude of at most
`2 ^ 24` the result is the exact componentwise product. -/
theorem scaleToFB_fields (r : Rect) (hx : |r.x| ≤ 2 ^ 24) (hy : |r.y| ≤ 2 ^ 24)
    (hw : |r.w| ≤ 2 ^ 24) (hh : |r.h| ≤ 2 ^ 24) :
    (∀ sx sy : ℚ,
      |F32.roundFinite ((r.x : ℚ) * sx)| < 2 ^ 31 →
      |F32.roundFinite ((r.y : ℚ) * sy)| < 2 ^ 31 →
      |F32.roundFinite ((r.w : ℚ) * sx)| < 2 ^ 31 →
      |F32.roundFinite ((r.h : ℚ) * sy)| < 2 ^ 31 →
      scaleToFB r sx sy =
        some ⟨F32.trunc (F32.roundFinite ((r.x : ℚ) * sx)),
          F32.trunc (F32.roundFinite ((r.y : ℚ) * sy)),
          F32.trunc (F32.roundFinite ((r.w : ℚ) * sx)),
          F32.trunc (F32.roundFinite ((r.h : ℚ) * sy))⟩) ∧
    scaleToFB r 1 1 = some r ∧
    (∀ kx ky : ℤ, |kx * r.x| ≤ 2 ^ 24 → |ky * r.y| ≤ 2 ^ 24 → |kx * r.w| ≤ 2 ^ 24 →
      |ky * r.h| ≤ 2 ^ 24 →
      scaleToFB r (kx : ℚ) (ky : ℚ) = some ⟨kx * r.x, ky * r.y, kx * r.w, ky * r.h⟩) := by
  have hint : ∀ kx ky : ℤ, |kx * r.x| ≤ 2 ^ 24 → |ky * r.y| ≤ 2 ^ 24 →
      |kx * r.w| ≤ 2 ^ 24 → |ky * r.h| ≤ 2 ^ 24 →
      scaleToFB r (kx : ℚ) (ky : ℚ) = some ⟨kx * r.x, ky * r.y, kx * r.w, ky * r.h⟩ := by
    intro kx ky h1 h2 h3 h4
    unfold scaleToFB
    rw [scaleField_int r.x kx hx h1, scaleField_int r.y ky hy h2,
      scaleField_int r.w kx hw h3, scaleField_int r.h ky hh h4]
  refine ⟨?_, ?_, hint⟩
  · intro sx sy b1 b2 b3 b4
    unfold scaleToFB
    rw [scaleField_eq r.x sx hx b1, scaleField_eq r.y sy hy b2, scaleField_eq r.w sx hw b3,
      scaleField_eq r.h sy hh b4]
  · have := hint 1 1 (by simpa using hx) (by simpa using hy) (by simpa using hw)
      (by simpa using hh)
    simpa using this

/-- Witness for C9 (as amended): the rectangle `(100, 100, 800, 600)` scaled by `(1, 1)`
is unchanged and scaled by `(2, 2)` is `(200, 200, 1600, 1200)`. -/
theorem scaleToFB_fields_witness :
    ((|(100 : Int)| ≤ 2 ^ 24 ∧ |(100 : Int)| ≤ 2 ^ 24 ∧ |(800 : Int)| ≤ 2 ^ 24 ∧
        |(600 : Int)| ≤ 2 ^ 24) ∧
      scaleToFB ⟨100, 100, 800, 600⟩ 1 1 = some ⟨100, 100, 800, 600⟩) ∧
    scaleToFB ⟨100, 100, 800, 600⟩ ((2 : ℤ) : ℚ) ((2 : ℤ) : ℚ) =
      some ⟨2 * 100, 2 * 100, 2 * 800, 2 * 600⟩ :=
  ⟨⟨by decide, (scaleToFB_fields ⟨100, 100, 800, 600⟩ (by decide) (by decide) (by decide)
      (by decide)).2.1⟩,
    (scaleToFB_fields ⟨100, 100, 800, 600⟩ (by decide) (by decide) (by decide)
      (by decide)).2.2 2 2 (by decide) (by decide) (by decide) (by decide)⟩

/-- Counterexample to C9 as stated.  (1) The rectangle with x = 16777217 = 2 ^ 24 + 1
scaled by `(1, 1)` has x = 16777216: the conversion of x to `float` rounds it.
(2) With the `float` factor `sx = 11744051 / 2 ^ 24` (the binary32 value of `0.7f`) and
x = 10 the program returns 7, while the exact product 6.99999988... truncates to 6: the
binary32 product is rounded up to 7 before the truncation. -/
theorem scaleToFB_fields_counterexample :
    (scaleToFB ⟨16777217, 0, 0, 0⟩ 1 1 = some ⟨16777216, 0, 0, 0⟩ ∧
      scaleToFB ⟨16777217, 0, 0, 0⟩ 1 1 ≠ some ⟨16777217, 0, 0, 0⟩) ∧
    (F32.roundFinite (11744051 / 16777216) = 11744051 / 16777216 ∧
      (0 : ℚ) ≤ 11744051 / 16777216 ∧
      scaleToFB ⟨10, 0, 0, 0⟩ (11744051 / 16777216) 1 = some ⟨7, 0, 0, 0⟩ ∧
      F32.trunc ((10 : ℚ) * (11744051 / 16777216)) = 6) := by
  decide!

namespace F32

theorem roundEven_bounds (t : ℚ) : ⌊t⌋ ≤ roundEven t ∧ roundEven t ≤ ⌊t⌋ + 1 := by
  unfold roundEven
  simp only
  split_ifs <;> constructor <;> omega

theorem ofInt_pos_rep (W : ℤ) (h1 : 0 < W) (h2 : W < 2 ^ 31) :
    ∃ k E : ℤ, 0 < k ∧ k ≤ 2 ^ 24 ∧ -23 ≤ E ∧ E ≤ 7 ∧ ofInt W = (k : ℚ) * (2 : ℚ) ^ E := by
  have hWq : (0 : ℚ) < (W : ℚ) := by exact_mod_cast h1
  have hq : (W : ℚ) ≠ 0 := ne_of_gt hWq
  have habs : |(W : ℚ)| = (W : ℚ) := abs_of_pos hWq
  have h2n : (2 : ℚ) ≠ 0 := by norm_num
  have hlow : 0 ≤ ilog2 (W : ℚ) := by
    apply le_ilog2 _ hq
    rw [habs]
    have : (1 : ℚ) ≤ (W : ℚ) := by exact_mod_cast h1
    simpa using this
  have hhigh : ilog2 (W : ℚ) < 31 := by
    apply ilog2_lt _ hq
    rw [habs]
    have : (W : ℚ) < ((2 ^ 31 : ℤ) : ℚ) := by exact_mod_cast h2
    norm_num at this ⊢
    exact this
  have hE : ulpExp (W : ℚ) = ilog2 (W : ℚ) - 23 := by
    unfold ulpExp
    apply max_eq_left
    omega
  obtain ⟨s1, s2⟩ := ilog2_spec (W : ℚ) hq
  rw [habs] at s1 s2
  have hpE := two_zpow_pos (ulpExp (W : ℚ))
  have ht1 : (2 : ℚ) ^ (23 : ℤ) ≤ (W : ℚ) / (2 : ℚ) ^ ulpExp (W : ℚ) := by
    rw [le_div_iff₀ hpE, ← zpow_add₀ h2n, hE]
    have : (23 : ℤ) + (ilog2 (W : ℚ) - 23) = ilog2 (W : ℚ) := by ring
    rw [this]
    exact s1
  have ht2 : (W : ℚ) / (2 : ℚ) ^ ulpExp (W : ℚ) < (2 : ℚ) ^ (24 : ℤ) := by
    rw [div_lt_iff₀ hpE, ← zpow_add₀ h2n, hE]
    have : (24 : ℤ) + (ilog2 (W : ℚ) - 23) = ilog2 (W : ℚ) + 1 := by ring
    rw [this]
    exact s2
  obtain ⟨r1, r2⟩ := roundEven_bounds ((W : ℚ) / (2 : ℚ) ^ ulpExp (W : ℚ))
  have hf1 : (2 ^ 23 : ℤ) ≤ ⌊(W : ℚ) / (2 : ℚ) ^ ulpExp (W : ℚ)⌋ := by
    rw [Int.le_floor]
    norm_num at ht1 ⊢
    exact ht1
  have hf2 : ⌊(W : ℚ) / (2 : ℚ) ^ ulpExp (W : ℚ)⌋ < (2 ^ 24 : ℤ) := by
    rw [Int.floor_lt]
    norm_num at ht2 ⊢
    exact ht2
  refine ⟨roundEven ((W : ℚ) / (2 : ℚ) ^ ulpExp (W : ℚ)), ulpExp (W : ℚ), by omega, by omega,
    by omega, by omega, ?_⟩
  unfold ofInt roundFinite
  rw [if_neg hq, if_neg (not_lt.2 (le_of_lt hWq)), habs]
  ring

theorem mul_two_ofInt (W : ℤ) (h1 : 0 < W) (h2 : W < 2 ^ 31) :
    mul 2 (ofInt W) = some (2 * ofInt W) ∧ ofInt W ≠ 0 := by
  obtain ⟨k, E, k1, k2, e1, e2, hrep⟩ := ofInt_pos_rep W h1 h2
  have h2n : (2 : ℚ) ≠ 0 := by norm_num
  have hpE := two_zpow_pos E
  have hkq : (0 : ℚ) < (k : ℚ) := by exact_mod_cast k1
  have hne : ofInt W ≠ 0 := by
    rw [hrep]
    exact ne_of_gt (mul_pos hkq hpE)
  refine ⟨?_, hne⟩
  have hdouble : 2 * ofInt W = (k : ℚ) * (2 : ℚ) ^ (E + 1) := by
    rw [hrep, zpow_add₀ h2n]
    ring
  have hexact : roundFinite (2 * ofInt W) = 2 * ofInt W := by
    rw [hdouble]
    exact roundFinite_exact_le k (E + 1) (by rw [abs_of_pos k1]; exact k2) (by omega)
  unfold mul
  apply (round_of_lt _ _).trans (by rw [hexact])
  rw [hexact, hdouble, abs_of_pos (mul_pos hkq (two_zpow_pos _))]
  have hk24 : (k : ℚ) ≤ (2 : ℚ) ^ (24 : ℤ) := by
    have : (k : ℚ) ≤ ((2 ^ 24 : ℤ) : ℚ) := by exact_mod_cast k2
    norm_num at this ⊢
    exact this
  have hE8 : (2 : ℚ) ^ (E + 1) ≤ (2 : ℚ) ^ (8 : ℤ) :=
    zpow_le_zpow_right₀ (by norm_num) (by omega)
  calc (k : ℚ) * (2 : ℚ) ^ (E + 1) ≤ (2 : ℚ) ^ (24 : ℤ) * (2 : ℚ) ^ (8 : ℤ) :=
        mul_le_mul hk24 hE8 (le_of_lt (two_zpow_pos _)) (by positivity)
    _ < 2 ^ 128 := by norm_num

end F32

theorem ndcX_zero (W : ℤ) (h1 : 0 < W) (h2 : W < 2 ^ 31) : ndcX 0 W = some (-1) := by
  obtain ⟨-, hne⟩ := F32.mul_two_ofInt W h1 h2
  have e1 : F32.mul 2 (F32.ofInt 0) = some 0 := by decide!
  have e2 : F32.div 0 (F32.ofInt W) = some 0 := by
    unfold F32.div
    rw [if_neg hne, zero_div]
    decide!
  have e3 : F32.sub 0 1 = some (-1) := by decide!
  unfold ndcX
  simp only [e1, e2, e3, Option.some_bind]

theorem ndcY_zero (H : ℤ) (h1 : 0 < H) (h2 : H < 2 ^ 31) : ndcY 0 H = some 1 := by
  obtain ⟨-, hne⟩ := F32.mul_two_ofInt H h1 h2
  have e1 : F32.mul 2 (F32.ofInt 0) = some 0 := by decide!
  have e2 : F32.div 0 (F32.ofInt H) = some 0 := by
    unfold F32.div
    rw [if_neg hne, zero_div]
    decide!
  have e3 : F32.sub 1 0 = some 1 := by decide!
  unfold ndcY
  simp only [e1, e2, e3, Option.some_bind]

theorem ndcX_full (W : ℤ) (h1 : 0 < W) (h2 : W < 2 ^ 31) : ndcX W W = some 1 := by
  obtain ⟨hmul, hne⟩ := F32.mul_two_ofInt W h1 h2
  have e2 : F32.div (2 * F32.ofInt W) (F32.ofInt W) = some 2 := by
    unfold F32.div
    rw [if_neg hne, mul_div_assoc, div_self hne, mul_one]
    decide!
  have e3 : F32.sub 2 1 = some 1 := by decide!
  unfold ndcX
  simp only [hmul, e2, e3, Option.some_bind]

theorem ndcY_full (H : ℤ) (h1 : 0 < H) (h2 : H < 2 ^ 31) : ndcY H H = some (-1) := by
  obtain ⟨hmul, hne⟩ := F32.mul_two_ofInt H h1 h2
  have e2 : F32.div (2 * F32.ofInt H) (F32.ofInt H) = some 2 := by
    unfold F32.div
    rw [if_neg hne, mul_div_assoc, div_self hne, mul_one]
    decide!
  have e3 : F32.sub 1 2 = some (-1) := by decide!
  unfold ndcY
  simp only [hmul, e2, e3, Option.some_bind]

/-! ## C10: the quad of the full surface -/

/-- C10.  For every surface size `(W, H)` of positive `int`s, `quadUpdate` for the
full-surface rectangle `(0, 0, W, H)` computes exactly `x0 = -1`, `y0 = 1` (top),
`x1 = 1`, `y1 = -1` (bottom), and writes the four vertices `(-1, -1)`, `(-1, 1)`,
`(1, -1)`, `(1, 1)` with the texture coordinates `(0, 1)`, `(0, 0)`, `(1, 1)`, `(1, 0)`:
the top-left vertex `(-1, 1)` has the texture coordinate `(0, 0)` and the bottom-right
vertex `(1, -1)` has `(1, 1)`. -/
theorem quadUpdate_full_surface (W H : Int) (hW : 0 < W) (hW2 : W ≤ 2147483647)
    (hH : 0 < H) (hH2 : H ≤ 2147483647) :
    quadCorners W H ⟨0, 0, W, H⟩ = some ⟨-1, 1, 1, -1⟩ ∧
    quadUpdate W H ⟨0, 0, W, H⟩ =
      some [⟨-1, -1, 0, 1⟩, ⟨-1, 1, 0, 0⟩, ⟨1, -1, 1, 1⟩, ⟨1, 1, 1, 0⟩] := by
  have hc : quadCorners W H ⟨0, 0, W, H⟩ = some ⟨-1, 1, 1, -1⟩ := by
    have a1 : intAdd 0 W = some W := by
      unfold intAdd
      rw [if_pos (by constructor <;> omega)]
      simp
    have a2 : intAdd 0 H = some H := by
      unfold intAdd
      rw [if_pos (by constructor <;> omega)]
      simp
    unfold quadCorners
    simp only [a1, a2, Option.some_bind, ndcX_zero W hW (by omega),
      ndcY_zero H hH (by omega), ndcX_full W hW (by omega), ndcY_full H hH (by omega)]
  refine ⟨hc, ?_⟩
  unfold quadUpdate
  rw [hc]
  rfl

/-- Witness for C10: a surface of 1600 by 1200. -/
theorem quadUpdate_full_surface_witness :
    ((0 : Int) < 1600 ∧ (1600 : Int) ≤ 2147483647 ∧ (0 : Int) < 1200 ∧
      (1200 : Int) ≤ 2147483647) ∧
    quadUpdate 1600 1200 ⟨0, 0, 1600, 1200⟩ =
      some [⟨-1, -1, 0, 1⟩, ⟨-1, 1, 0, 0⟩, ⟨1, -1, 1, 1⟩, ⟨1, 1, 1, 0⟩] :=
  ⟨by decide,
    (quadUpdate_full_surface 1600 1200 (by decide) (by decide) (by decide) (by decide)).2⟩

/-! ## C11: the device-space rectangle handed to `quadUpdate` -/

end ChromaOverlay
